import Mathlib

/-!
Verification development for the tokio-fastcgi responder-side protocol
library.  The repository ships only the integration tests
(`src/tests/commons.rs`, `src/tests/integration.rs`, `src/tests/server.rs`)
and two examples; the library core (`lib.rs`) is not present.  The engine
below is therefore modelled from the specification (record codec,
name-value codec, per-request state machine, multiplexer, output writer,
management handler, driver facade) and validated against the concrete
byte-level inputs and expected outputs of every test case in
`src/tests/commons.rs`: for each test we prove that running the modelled
engine on the embedded input records produces exactly the byte sequence
the test expects on the wire.

Bytes are `Nat` (< 256 where they come from the wire), byte strings are
`List Nat`.
-/

/-- Bytes of an ASCII string literal, as natural numbers. -/
def strBytes (s : String) : List Nat :=
  s.data.map (fun c => c.toNat)

/-- Modelled from the spec: lookup of parameter names is case-insensitive,
implemented by lowercasing single bytes (ASCII). -/
def lowerByte (b : Nat) : Nat :=
  if 65 ≤ b ∧ b ≤ 90 then b + 32 else b

/-- Lowercase each byte of a name. -/
def lowerName (n : List Nat) : List Nat :=
  n.map lowerByte

/-- Is `b` a UTF-8 continuation byte (0x80..0xBF)? -/
def contB (b : Nat) : Bool :=
  128 ≤ b && b ≤ 191

/-- Modelled from the spec: the string-view accessors of the missing
`lib.rs` expose a parameter value as a string exactly when its bytes are
valid UTF-8.  This is the RFC 3629 validity predicate. -/
def validUtf8 : List Nat → Bool
  | [] => true
  | b :: rest =>
      if b ≤ 127 then validUtf8 rest
      else if 194 ≤ b && b ≤ 223 then
        match rest with
        | c1 :: r => contB c1 && validUtf8 r
        | _ => false
      else if 224 ≤ b && b ≤ 239 then
        match rest with
        | c1 :: c2 :: r =>
            (if b = 224 then 160 ≤ c1 && c1 ≤ 191
             else if b = 237 then 128 ≤ c1 && c1 ≤ 159
             else contB c1) && contB c2 && validUtf8 r
        | _ => false
      else if 240 ≤ b && b ≤ 244 then
        match rest with
        | c1 :: c2 :: c3 :: r =>
            (if b = 240 then 144 ≤ c1 && c1 ≤ 191
             else if b = 244 then 128 ≤ c1 && c1 ≤ 143
             else contB c1) && contB c2 && contB c3 && validUtf8 r
        | _ => false
      else false

/-- Fuelled worker for `decimal`. -/
def decimalGo : Nat → Nat → List Nat
  | 0, n => [48 + n % 10]
  | fuel + 1, n =>
      if n < 10 then [48 + n]
      else decimalGo fuel (n / 10) ++ [48 + n % 10]

/-- Decimal ASCII representation of a natural number (used by the
management handler for the GetValues replies). -/
def decimal (n : Nat) : List Nat :=
  decimalGo n n

/-- Parse a decimal ASCII byte string into a natural number. -/
def natOfDecimal (ds : List Nat) : Nat :=
  ds.foldl (fun a d => a * 10 + (d - 48)) 0

/-- Big-endian 4-byte encoding of a 32-bit application status. -/
def be32 (n : Nat) : List Nat :=
  [n / 16777216 % 256, n / 65536 % 256, n / 256 % 256, n % 256]

/-- Encode one FCGI name-value length: one byte if < 128, otherwise four
bytes big-endian with the high bit of the first byte set. -/
def encLen (l : Nat) : List Nat :=
  if l < 128 then [l]
  else [128 + l / 16777216 % 128, l / 65536 % 256, l / 256 % 256, l % 256]

/-- Encode a sequence of FCGI name-value pairs. -/
def encodeNV (ps : List (List Nat × List Nat)) : List Nat :=
  ps.flatMap (fun p =>
    encLen p.1.length ++ encLen p.2.length ++ p.1 ++ p.2)

/-- Decode one FCGI name-value length prefix; returns the length and the
remaining bytes, or `none` if the prefix is truncated. -/
def decodeLen : List Nat → Option (Nat × List Nat)
  | [] => none
  | b :: rest =>
      if b < 128 then some (b, rest)
      else
        match rest with
        | b1 :: b2 :: b3 :: r =>
            some ((b - 128) * 16777216 + b1 * 65536 + b2 * 256 + b3, r)
        | _ => none

/-- Fuelled worker for `decodeNV`. -/
def decodeNVGo : Nat → List Nat → Option (List (List Nat × List Nat))
  | _, [] => some []
  | 0, _ :: _ => none
  | fuel + 1, bs =>
      match decodeLen bs with
      | none => none
      | some (nl, r1) =>
          match decodeLen r1 with
          | none => none
          | some (vl, r2) =>
              if r2.length < nl + vl then none
              else
                match decodeNVGo fuel (r2.drop (nl + vl)) with
                | none => none
                | some ps => some ((r2.take nl, (r2.drop nl).take vl) :: ps)

/-- Decode a byte slice into FCGI name-value pairs; `none` models the
fatal `MalformedParams` error (truncated prefix or declared length that
exceeds the remaining bytes). -/
def decodeNV (bs : List Nat) : Option (List (List Nat × List Nat)) :=
  decodeNVGo bs.length bs

/-- Fuelled worker for `chunks`. -/
def chunksGo : Nat → List Nat → List (List Nat)
  | _, [] => []
  | 0, l => [l]
  | fuel + 1, l =>
      if l.length ≤ 65535 then [l]
      else l.take 65535 :: chunksGo fuel (l.drop 65535)

/-- Split an application write into record-sized chunks (at most 65535
bytes of content per record); an empty write produces no record. -/
def chunks (l : List Nat) : List (List Nat) :=
  chunksGo l.length l

/-- A parsed FastCGI record: raw type byte, request id, content bytes
(padding already stripped by the decoder). -/
structure Record where
  rtype : Nat
  id : Nat
  body : List Nat
deriving DecidableEq

/-- Embedding of `create_record` from `src/tests/commons.rs`: an 8-byte
header (version 1, type, 2-byte big-endian id with high byte 0, 2-byte
big-endian content length, padding length, reserved 0), the content, then
`padding` zero bytes. -/
def createRecord (rtype rid padding : Nat) (data : List Nat) : List Nat :=
  [1, rtype, 0, rid, data.length / 256, data.length % 256, padding, 0]
    ++ data ++ List.replicate padding 0

/-- Encode an outbound record; the modelled writer emits no padding,
matching the byte sequences expected by the tests. -/
def encodeRecord (r : Record) : List Nat :=
  [1, r.rtype, r.id / 256, r.id % 256, r.body.length / 256,
    r.body.length % 256, 0, 0] ++ r.body

/-- Encode a whole outbound record sequence as wire bytes. -/
def encodeOut (rs : List Record) : List Nat :=
  rs.flatMap encodeRecord

/-- Fuelled worker for `decodeRecords`. -/
def decodeRecsGo : Nat → List Nat → Option (List Record)
  | _, [] => some []
  | 0, _ :: _ => none
  | fuel + 1, bs =>
      match bs with
      | v :: t :: idHi :: idLo :: lenHi :: lenLo :: pad :: _rsv :: rest =>
          if v ≠ 1 then none
          else
            let len := lenHi * 256 + lenLo
            if rest.length < len + pad then none
            else
              match decodeRecsGo fuel (rest.drop (len + pad)) with
              | some rs =>
                  some (⟨t, idHi * 256 + idLo, rest.take len⟩ :: rs)
              | none => none
      | _ => none

/-- Modelled from the spec: the streaming record decoder of the missing
`lib.rs`.  Reads the 8-byte header, validates `version = 1`, reads content
and discards padding; `none` models the fatal `UnexpectedEof` /
`InvalidVersion` errors. -/
def decodeRecords (bs : List Nat) : Option (List Record) :=
  decodeRecsGo bs.length bs

/-- Result returned by a request handler: `complete` with a 32-bit
application status, or `unknownRole`. -/
inductive HandlerResult where
  | complete (appStatus : Nat)
  | unknownRole
deriving DecidableEq

/-- The view of a sealed request that the handler receives: id, role,
keep-connection flag, the sealed parameter map (lowercased names paired
with the original value bytes), and the fully assembled stdin and data
buffers. -/
structure RequestView where
  id : Nat
  role : Nat
  keepConn : Bool
  params : List (List Nat × List Nat)
  stdin : List Nat
  data : List Nat
deriving DecidableEq

/-- What a handler run produces: the submitted writes, in submission
order (`true` = stdout, `false` = stderr), and its result. -/
structure HandlerOutcome where
  writes : List (Bool × List Nat)
  result : HandlerResult
deriving DecidableEq

/-- A request handler, as the engine sees it: a pure function from the
request view to an outcome. -/
def Handler : Type :=
  RequestView → HandlerOutcome

/-- Engine configuration: the two informational bounds reported through
GetValues. -/
structure Config where
  maxConns : Nat
  maxReqs : Nat
deriving DecidableEq

/-- Fatal engine errors (the non-fatal unknown-type case is handled by a
reply record instead). -/
inductive EngineError where
  | invalidRoleNumber
  | malformedParams
deriving DecidableEq

/-- Ghost events recording what happened on a connection: a BeginRequest
was accepted (with a fresh incarnation index `n`), a handler was invoked
for a completed request, or a request was ended by an AbortRequest before
its handler ran. -/
inductive Event where
  | accepted (n k role : Nat) (keepConn : Bool)
  | invoked (n k : Nat) (view : RequestView) (outcome : HandlerOutcome)
  | abortedEv (n k : Nat)
deriving DecidableEq

/-- The incarnation index of an event. -/
def evN : Event → Nat
  | .accepted n _ _ _ => n
  | .invoked n _ _ _ => n
  | .abortedEv n _ => n

/-- The request id of an event. -/
def evId : Event → Nat
  | .accepted _ k _ _ => k
  | .invoked _ k _ _ => k
  | .abortedEv _ k => k

/-- Is this event a completion (handler invocation or abort)? -/
def isCompl : Event → Bool
  | .accepted _ _ _ _ => false
  | .invoked _ _ _ _ => true
  | .abortedEv _ _ => true

/-- Is this event an acceptance for request id `k`? -/
def isAcceptedFor (k : Nat) : Event → Bool
  | .accepted _ j _ _ => j == k
  | _ => false

/-- Is this event a handler invocation for request id `k`? -/
def isInvokedFor (k : Nat) : Event → Bool
  | .invoked _ j _ _ => j == k
  | _ => false

/-- Modelled from the spec: the per-request assembly state kept by the
multiplexer of the missing `lib.rs` — role, keep-connection flag, raw
params buffer, the decoded parameter map once the params stream is
sealed, the stdin and data buffers with their end-of-stream flags, plus
the ghost incarnation index `n`. -/
structure ReqState where
  n : Nat
  role : Nat
  keepConn : Bool
  paramsBuf : List Nat
  params : Option (List (List Nat × List Nat))
  stdin : List Nat
  stdinClosed : Bool
  data : List Nat
  dataClosed : Bool
deriving DecidableEq

/-- Modelled from the spec and validated against the tests: a request is
ready for its handler when its params stream is sealed and the input
streams its role requires are sealed — nothing more for Authorizer (2),
stdin for Responder (1), stdin and data for Filter (3). -/
def ReqState.ready (st : ReqState) : Bool :=
  st.params.isSome &&
    (if st.role = 2 then true
     else if st.role = 3 then st.stdinClosed && st.dataClosed
     else st.stdinClosed)

/-- Modelled from the spec: the per-connection state of the multiplexer —
the table of in-flight requests keyed by id, the outbound records emitted
so far, the ghost event log, the next incarnation index, whether the
connection was closed after a non-keep-conn request ended, and a fatal
error, if one occurred. -/
structure ConnState where
  table : List (Nat × ReqState)
  out : List Record
  log : List Event
  counter : Nat
  closed : Bool
  fatal : Option EngineError
deriving DecidableEq

/-- The initial state of a connection. -/
def initConn : ConnState :=
  { table := [], out := [], log := [], counter := 0,
    closed := false, fatal := none }

/-- First-match lookup in the request table. -/
def lookupTable : List (Nat × ReqState) → Nat → Option ReqState
  | [], _ => none
  | (k, st) :: t, i => if k = i then some st else lookupTable t i

/-- Remove a request id from the table. -/
def removeTable : List (Nat × ReqState) → Nat → List (Nat × ReqState)
  | [], _ => []
  | (k, st) :: t, i =>
      if k = i then removeTable t i else (k, st) :: removeTable t i

/-- Replace the state stored for a request id (first occurrence). -/
def setTable : List (Nat × ReqState) → Nat → ReqState → List (Nat × ReqState)
  | [], i, st' => [(i, st')]
  | (k, st) :: t, i, st' =>
      if k = i then (i, st') :: t else (k, st) :: setTable t i st'

/-- Is a request id active in the table? -/
def hasKey (t : List (Nat × ReqState)) (i : Nat) : Bool :=
  (lookupTable t i).isSome

/-- The EndRequest body for a handler result: 4 bytes of big-endian
application status, one protocol-status byte (0 = RequestComplete for
`complete`, 3 = UnknownRole for `unknownRole`), 3 reserved zero bytes. -/
def endBody : HandlerResult → List Nat
  | .complete app => be32 app ++ [0, 0, 0, 0]
  | .unknownRole => [0, 0, 0, 0, 3, 0, 0, 0]

/-- The 8-byte all-zero EndRequest body emitted for an aborted request
(application status 0, protocol status RequestComplete). -/
def zeros8 : List Nat :=
  [0, 0, 0, 0, 0, 0, 0, 0]

/-- The records produced by the handler's writes, in submission order:
each write is chunked into records of at most 65535 content bytes on
stream StdOut (6) or StdErr (7). -/
def writeRecords (k : Nat) (ws : List (Bool × List Nat)) : List Record :=
  ws.flatMap (fun w =>
    (chunks w.2).map (fun c => ⟨if w.1 then 6 else 7, k, c⟩))

/-- Everything the driver emits for one handled request: the chunked
writes in submission order, then a zero-length StdOut closer, a
zero-length StdErr closer, and the EndRequest record. -/
def handlerRecords (k : Nat) (oc : HandlerOutcome) : List Record :=
  writeRecords k oc.writes ++
    [⟨6, k, []⟩, ⟨7, k, []⟩, ⟨3, k, endBody oc.result⟩]

/-- The view handed to the handler for a completed request. -/
def mkView (k : Nat) (st : ReqState) : RequestView :=
  { id := k, role := st.role, keepConn := st.keepConn,
    params := st.params.getD [], stdin := st.stdin, data := st.data }

/-- Build the sealed parameter map: lowercased names paired with the
original, unmodified value bytes. -/
def buildParams (ps : List (List Nat × List Nat)) :
    List (List Nat × List Nat) :=
  ps.map (fun p => (lowerName p.1, p.2))

/-- The reply the management handler gives for one received GetValues
key: the decimal string of the configured bounds for FCGI_MAX_CONNS and
FCGI_MAX_REQS, the fixed string "1" for FCGI_MPXS_CONNS; unrecognized
keys are omitted. -/
def replyFor (cfg : Config) (p : List Nat × List Nat) :
    Option (List Nat × List Nat) :=
  if p.1 = strBytes "FCGI_MAX_CONNS" then
    some (p.1, decimal cfg.maxConns)
  else if p.1 = strBytes "FCGI_MAX_REQS" then
    some (p.1, decimal cfg.maxReqs)
  else if p.1 = strBytes "FCGI_MPXS_CONNS" then
    some (p.1, strBytes "1")
  else none

/-- The name-value pairs of a GetValuesResult reply. -/
def replyPairs (cfg : Config) (ps : List (List Nat × List Nat)) :
    List (List Nat × List Nat) :=
  ps.filterMap (replyFor cfg)

/-- Modelled from the spec: the driver of the missing `lib.rs` finishes a
completed request by invoking the handler and emitting its writes, the
two zero-length stream closers and the EndRequest record; the request id
is then freed and the connection closes iff the keep-conn flag is unset. -/
def finishReq (h : Handler) (s : ConnState) (i : Nat) (st : ReqState) :
    ConnState :=
  let view := mkView i st
  let oc := h view
  { s with table := removeTable s.table i,
           out := s.out ++ handlerRecords i oc,
           log := s.log ++ [Event.invoked st.n i view oc],
           closed := !st.keepConn }

/-- Store the updated per-request state; if the update made the request
ready, finish it immediately. -/
def putAndCheck (h : Handler) (s : ConnState) (i : Nat) (st' : ReqState) :
    ConnState :=
  if st'.ready then finishReq h s i st'
  else { s with table := setTable s.table i st' }

/-- Modelled from the spec: BeginRequest handling — parse role (2 bytes
big-endian) and flags from the body; a role outside {1,2,3} is the fatal
`InvalidRoleNumber` error; otherwise, if the id is not already active,
allocate fresh request state. -/
def newReqState (cnt role : Nat) (keep : Bool) : ReqState :=
  { n := cnt, role := role, keepConn := keep, paramsBuf := [],
    params := none, stdin := [], stdinClosed := false, data := [],
    dataClosed := false }

def handleBegin (s : ConnState) (i : Nat) (body : List Nat) : ConnState :=
  let role := body.getD 0 0 * 256 + body.getD 1 0
  let keep := body.getD 2 0 % 2 = 1
  if role = 1 ∨ role = 2 ∨ role = 3 then
    match lookupTable s.table i with
    | some _ => s
    | none =>
        { s with
            table := (i, newReqState s.counter role keep) :: s.table,
            log := s.log ++ [Event.accepted s.counter i role keep],
            counter := s.counter + 1 }
  else { s with fatal := some EngineError.invalidRoleNumber }

/-- Modelled from the spec: AbortRequest handling — for an active id the
handler has not yet run, so emit the EndRequest with application status 0
and protocol status RequestComplete, free the id, and close the
connection iff keep-conn is unset; unknown ids are dropped. -/
def handleAbort (s : ConnState) (i : Nat) : ConnState :=
  match lookupTable s.table i with
  | none => s
  | some st =>
      { s with table := removeTable s.table i,
               out := s.out ++ [⟨3, i, zeros8⟩],
               log := s.log ++ [Event.abortedEv st.n i],
               closed := !st.keepConn }

/-- Modelled from the spec: Params handling — a non-empty record appends
to the raw buffer; the empty record seals the stream, decoding the buffer
into the parameter map (a malformed buffer is fatal); records for unknown
or already-sealed ids are dropped. -/
def handleParams (h : Handler) (s : ConnState) (i : Nat)
    (body : List Nat) : ConnState :=
  match lookupTable s.table i with
  | none => s
  | some st =>
      if st.params.isSome then s
      else if body.isEmpty then
        match decodeNV st.paramsBuf with
        | none => { s with fatal := some EngineError.malformedParams }
        | some ps => putAndCheck h s i { st with params := some (buildParams ps) }
      else putAndCheck h s i { st with paramsBuf := st.paramsBuf ++ body }

/-- Modelled from the spec: StdIn handling — append, or seal on the empty
record; drops records for unknown ids or after the stream was sealed. -/
def handleStdin (h : Handler) (s : ConnState) (i : Nat)
    (body : List Nat) : ConnState :=
  match lookupTable s.table i with
  | none => s
  | some st =>
      if st.stdinClosed then s
      else if body.isEmpty then putAndCheck h s i { st with stdinClosed := true }
      else putAndCheck h s i { st with stdin := st.stdin ++ body }

/-- Modelled from the spec: Data handling (Filter role side channel) —
append, or seal on the empty record. -/
def handleData (h : Handler) (s : ConnState) (i : Nat)
    (body : List Nat) : ConnState :=
  match lookupTable s.table i with
  | none => s
  | some st =>
      if st.dataClosed then s
      else if body.isEmpty then putAndCheck h s i { st with dataClosed := true }
      else putAndCheck h s i { st with data := st.data ++ body }

/-- Modelled from the spec: GetValues handling — decode the received
name-value pairs and reply with a single GetValuesResult record carrying
one pair per recognized key, on the id of the received record; no request
state is touched and no handler runs. -/
def handleGetValues (cfg : Config) (s : ConnState) (i : Nat)
    (body : List Nat) : ConnState :=
  match decodeNV body with
  | none => { s with fatal := some EngineError.malformedParams }
  | some ps =>
      { s with out := s.out ++ [⟨10, i, encodeNV (replyPairs cfg ps)⟩] }

/-- Modelled from the spec: a record whose type byte is not recognized is
answered (non-fatally) with an UnknownType record whose 8-byte body is
the raw type byte followed by seven zero bytes. -/
def emitUnknown (s : ConnState) (t i : Nat) : ConnState :=
  { s with out := s.out ++ [⟨11, i, [t, 0, 0, 0, 0, 0, 0, 0]⟩] }

/-- Modelled from the spec: the multiplexer routes one inbound record.
Nothing is processed after a fatal error or after the connection closed.
Recognized inbound types are dispatched; recognized reply-only types
(3, 6, 7, 10, 11) are dropped; unrecognized types get the UnknownType
reply. -/
def step (cfg : Config) (h : Handler) (s : ConnState) (r : Record) :
    ConnState :=
  if s.fatal.isSome || s.closed then s
  else if r.rtype = 1 then handleBegin s r.id r.body
  else if r.rtype = 2 then handleAbort s r.id
  else if r.rtype = 4 then handleParams h s r.id r.body
  else if r.rtype = 5 then handleStdin h s r.id r.body
  else if r.rtype = 8 then handleData h s r.id r.body
  else if r.rtype = 9 then handleGetValues cfg s r.id r.body
  else if 1 ≤ r.rtype && r.rtype ≤ 11 then s
  else emitUnknown s r.rtype r.id

/-- Run the modelled engine over a whole inbound record sequence. -/
def runConn (cfg : Config) (h : Handler) (input : List Record) :
    ConnState :=
  input.foldl (step cfg h) initConn

/-- The configuration used by `run_test` in `src/tests/integration.rs`:
`Requests::new(input, output, 5, 10)`. -/
def testConfig : Config :=
  { maxConns := 5, maxReqs := 10 }

/-- First-match lookup in a sealed parameter map (keys are lowercased
names). -/
def lookupParams : List (List Nat × List Nat) → List Nat → Option (List Nat)
  | [], _ => none
  | p :: t, name => if p.1 = name then some p.2 else lookupParams t name

/-- Modelled from the spec: `Request::get_param` of the missing `lib.rs` —
case-insensitive lookup, returning the original value bytes. -/
def getParam (ps : List (List Nat × List Nat)) (name : List Nat) :
    Option (List Nat) :=
  lookupParams ps (lowerName name)

/-- Modelled from the spec: `Request::get_str_param` — the value as a
string exactly when the value bytes are valid UTF-8, `none` otherwise. -/
def getStrParam (ps : List (List Nat × List Nat)) (name : List Nat) :
    Option (List Nat) :=
  match getParam ps name with
  | some v => if validUtf8 v then some v else none
  | none => none

/-- Modelled from the spec: `Request::str_params_iter` — each lowercased
name paired with the string view of its value when it is valid UTF-8. -/
def strParamsIter (ps : List (List Nat × List Nat)) :
    List (List Nat × Option (List Nat)) :=
  ps.map (fun p => (p.1, if validUtf8 p.2 then some p.2 else none))

/-- The stdin filler used by several tests: the bytes 0..99. -/
def range100 : List Nat :=
  List.range 100

/-- The params body of `TestParamsInOut::get_input`. -/
def paramsInOutParamBytes : List Nat :=
  [11, 2] ++ strBytes "SERVER_PORT" ++ strBytes "80" ++
    [4, 3] ++ strBytes "TEST" ++ strBytes "YES" ++
    [6, 3] ++ strBytes "NOUTF8" ++ strBytes "NO" ++ [240]

/-- Embedding of the handler of `TestParamsInOut::processor`: all the
test's assertions are folded into the application status (the expected
status 0xDEADBEEF is returned only if every assertion holds), and
"TEST1234" is written to stdout. -/
def paramsInOutHandler : Handler := fun v =>
  let ps := v.params
  let checks :=
    getParam ps (strBytes "SERVER_PORT") == some (strBytes "80") &&
    getStrParam ps (strBytes "SERVER_PORT") == some (strBytes "80") &&
    getParam ps (strBytes "TEST") == some (strBytes "YES") &&
    getStrParam ps (strBytes "TEST") == some (strBytes "YES") &&
    getParam ps (strBytes "NOUTF8") == some (strBytes "NO" ++ [240]) &&
    getStrParam ps (strBytes "NOUTF8") == none &&
    getParam ps (strBytes "SERVER_DUMMY") == none &&
    ps == [(strBytes "server_port", strBytes "80"),
           (strBytes "test", strBytes "YES"),
           (strBytes "noutf8", strBytes "NO" ++ [240])] &&
    strParamsIter ps ==
      [(strBytes "server_port", some (strBytes "80")),
       (strBytes "test", some (strBytes "YES")),
       (strBytes "noutf8", none)] &&
    v.stdin == range100
  { writes := [(true, strBytes "TEST1234")],
    result := .complete (if checks then 0xDEADBEEF else 0) }

/-- The inbound records of `TestParamsInOut::get_input`. -/
def paramsInOutRecs : List Record :=
  [⟨1, 1, [0, 1, 0, 0, 0, 0, 0, 0]⟩,
   ⟨4, 1, paramsInOutParamBytes⟩,
   ⟨4, 1, []⟩,
   ⟨5, 1, range100⟩,
   ⟨5, 1, []⟩]

/-- The raw inbound bytes of `TestParamsInOut::get_input` (with the
padding amounts the test uses). -/
def paramsInOutBytes : List Nat :=
  createRecord 1 1 9 [0, 1, 0, 0, 0, 0, 0, 0] ++
    createRecord 4 1 6 paramsInOutParamBytes ++
    createRecord 4 1 0 [] ++
    createRecord 5 1 3 range100 ++
    createRecord 5 1 3 []

/-- The wire bytes `TestParamsInOut::get_output` expects. -/
def paramsInOutExpect : List Nat :=
  [1, 6, 0, 1, 0, 8, 0, 0] ++ strBytes "TEST1234" ++
    [1, 6, 0, 1, 0, 0, 0, 0] ++
    [1, 7, 0, 1, 0, 0, 0, 0] ++
    [1, 3, 0, 1, 0, 8, 0, 0, 222, 173, 190, 239, 0, 0, 0, 0]

/-- Embedding of the handler of `TestRoleAuthorizer::processor`. -/
def authorizerHandler : Handler := fun v =>
  let checks :=
    v.role == 2 && getParam v.params (strBytes "USER") == some (strBytes "ME")
  { writes := [], result := .complete (if checks then 0 else 1) }

/-- The inbound records of `TestRoleAuthorizer::get_input`. -/
def authorizerRecs : List Record :=
  [⟨1, 1, [0, 2, 0, 0, 0, 0, 0, 0]⟩,
   ⟨4, 1, [4, 2] ++ strBytes "USER" ++ strBytes "ME"⟩,
   ⟨4, 1, []⟩]

/-- The wire bytes `TestRoleAuthorizer::get_output` expects. -/
def authorizerExpect : List Nat :=
  [1, 6, 0, 1, 0, 0, 0, 0] ++ [1, 7, 0, 1, 0, 0, 0, 0] ++
    [1, 3, 0, 1, 0, 8, 0, 0, 0, 0, 0, 0, 0, 0, 0, 0]

/-- Embedding of the handler of `TestRoleFilter::processor`. -/
def filterHandler : Handler := fun v =>
  let checks :=
    v.role == 3 &&
    getParam v.params (strBytes "FCGI_DATA_LAST_MOD")
      == some (strBytes "1595418756") &&
    getParam v.params (strBytes "FCGI_DATA_LENGTH") == some (strBytes "12") &&
    v.data == strBytes "THIS_IS_DATA"
  { writes := [], result := .complete (if checks then 0 else 1) }

/-- The inbound records of `TestRoleFilter::get_input`. -/
def filterRecs : List Record :=
  [⟨1, 1, [0, 3, 0, 0, 0, 0, 0, 0]⟩,
   ⟨4, 1, [18, 10] ++ strBytes "FCGI_DATA_LAST_MOD" ++
      strBytes "1595418756" ++ [16, 2] ++ strBytes "FCGI_DATA_LENGTH" ++
      strBytes "12"⟩,
   ⟨4, 1, []⟩,
   ⟨8, 1, strBytes "THIS_IS_DATA"⟩,
   ⟨8, 1, []⟩,
   ⟨5, 1, []⟩]

/-- A handler for the test cases whose processor is `unreachable!`: if it
ever ran, its visible write would break the expected output. -/
def neverHandler : Handler := fun _ =>
  { writes := [(true, strBytes "UNREACHABLE")], result := .complete 0 }

/-- The inbound records of `TestAbortRequest::get_input`. -/
def abortRequestRecs : List Record :=
  [⟨1, 1, [0, 1, 0, 0, 0, 0, 0, 0]⟩,
   ⟨4, 1, [4, 2] ++ strBytes "USER" ++ strBytes "ME"⟩,
   ⟨4, 1, []⟩,
   ⟨2, 1, []⟩]

/-- The wire bytes `TestAbortRequest::get_output` expects: a single
EndRequest with application status 0 and protocol status 0. -/
def abortRequestExpect : List Nat :=
  [1, 3, 0, 1, 0, 8, 0, 0, 0, 0, 0, 0, 0, 0, 0, 0]

/-- Embedding of the handler of `TestAbortContinue::processor`. -/
def abortContinueHandler : Handler := fun v =>
  let checks := getStrParam v.params (strBytes "IDX") == some (strBytes "0")
  { writes := [(true, strBytes "0")],
    result := .complete (if checks then 0x44332211 else 0) }

/-- The inbound records of `TestAbortContinue::get_input`: two keep-conn
requests (ids 0 and 1); id 1 is aborted mid-stdin, id 0 runs. -/
def abortContinueRecs : List Record :=
  [⟨1, 0, [0, 1, 1, 0, 0, 0, 0, 0]⟩,
   ⟨4, 0, [3, 1] ++ strBytes "IDX" ++ strBytes "0"⟩,
   ⟨1, 1, [0, 1, 1, 0, 0, 0, 0, 0]⟩,
   ⟨4, 0, []⟩,
   ⟨4, 1, [3, 1] ++ strBytes "IDX" ++ strBytes "1"⟩,
   ⟨4, 1, []⟩,
   ⟨5, 1, range100⟩,
   ⟨2, 1, []⟩,
   ⟨5, 0, range100⟩,
   ⟨5, 0, []⟩]

/-- The wire bytes `TestAbortContinue::get_output` expects. -/
def abortContinueExpect : List Nat :=
  [1, 3, 0, 1, 0, 8, 0, 0, 0, 0, 0, 0, 0, 0, 0, 0] ++
    [1, 6, 0, 0, 0, 1, 0, 0, 48] ++
    [1, 6, 0, 0, 0, 0, 0, 0] ++
    [1, 7, 0, 0, 0, 0, 0, 0] ++
    [1, 3, 0, 0, 0, 8, 0, 0, 68, 51, 34, 17, 0, 0, 0, 0]

/-- Embedding of the handler of `TestUnknownRoleReturn::processor`: it
returns `UnknownRole`. -/
def unknownRoleReturnHandler : Handler := fun _ =>
  { writes := [], result := .unknownRole }

/-- The inbound records of `TestUnknownRoleReturn::get_input`. -/
def unknownRoleReturnRecs : List Record :=
  [⟨1, 1, [0, 1, 0, 0, 0, 0, 0, 0]⟩,
   ⟨4, 1, [11, 2] ++ strBytes "SERVER_PORT" ++ strBytes "80" ++
      [4, 3] ++ strBytes "TEST" ++ strBytes "YES"⟩,
   ⟨4, 1, []⟩,
   ⟨5, 1, range100⟩,
   ⟨5, 1, []⟩]

/-- The wire bytes `TestUnknownRoleReturn::get_output` expects: empty
stream closers, then EndRequest with protocol status 3 (UnknownRole). -/
def unknownRoleReturnExpect : List Nat :=
  [1, 6, 0, 1, 0, 0, 0, 0] ++ [1, 7, 0, 1, 0, 0, 0, 0] ++
    [1, 3, 0, 1, 0, 8, 0, 0, 0, 0, 0, 0, 3, 0, 0, 0]

/-- The inbound records of `TestUnknownRoleRequest::get_input`: a
BeginRequest carrying role 0xFFFF. -/
def unknownRoleRequestRecs : List Record :=
  [⟨1, 1, [255, 255, 0, 0, 0, 0, 0, 0]⟩,
   ⟨4, 1, []⟩,
   ⟨5, 1, []⟩]

/-- The inbound records of `TestUnknownRequestType::get_input`: a record
of unrecognized type 99, then a valid GetValues. -/
def unknownTypeRecs : List Record :=
  [⟨99, 1, []⟩,
   ⟨9, 1, [14, 0] ++ strBytes "FCGI_MAX_CONNS"⟩]

/-- The wire bytes `TestUnknownRequestType::get_output` expects. -/
def unknownTypeExpect : List Nat :=
  [1, 11, 0, 1, 0, 8, 0, 0, 99, 0, 0, 0, 0, 0, 0, 0] ++
    [1, 10, 0, 1, 0, 17, 0, 0] ++
    [14, 1] ++ strBytes "FCGI_MAX_CONNS" ++ strBytes "5"

/-- The inbound records of `TestGetValues::get_input`. -/
def getValuesRecs : List Record :=
  [⟨9, 1, [14, 0] ++ strBytes "FCGI_MAX_CONNS" ++
     [13, 0] ++ strBytes "FCGI_MAX_REQS" ++
     [15, 0] ++ strBytes "FCGI_MPXS_CONNS"⟩]

/-- The wire bytes `TestGetValues::get_output` expects: a single
GetValuesResult carrying the three pairs with the decimal values of the
(5, 10) configuration. -/
def getValuesExpect : List Nat :=
  [1, 10, 0, 1, 0, 52, 0, 0] ++
    [14, 1] ++ strBytes "FCGI_MAX_CONNS" ++ strBytes "5" ++
    [13, 2] ++ strBytes "FCGI_MAX_REQS" ++ strBytes "10" ++
    [15, 1] ++ strBytes "FCGI_MPXS_CONNS" ++ strBytes "1"

/-- Embedding of the handler of `TestKeepConnection::processor`: writes
the IDX parameter to stdout and "X" plus a derived letter to stderr, and
returns 0x11223344 times the numeric IDX. -/
def keepConnHandler : Handler := fun v =>
  let idx := (getStrParam v.params (strBytes "IDX")).getD []
  { writes := [(true, idx), (false, [88, idx.getD 0 49 - 49 + 65])],
    result := .complete (0x11223344 * natOfDecimal idx) }

/-- The inbound records of `TestKeepConnection::get_input`: two keep-conn
requests (ids 0 and 1); id 0's params seal first, id 1's stdin seals
first. -/
def keepConnRecs : List Record :=
  [⟨1, 0, [0, 1, 1, 0, 0, 0, 0, 0]⟩,
   ⟨4, 0, [3, 1] ++ strBytes "IDX" ++ strBytes "1"⟩,
   ⟨1, 1, [0, 1, 1, 0, 0, 0, 0, 0]⟩,
   ⟨4, 0, []⟩,
   ⟨4, 1, [3, 1] ++ strBytes "IDX" ++ strBytes "2"⟩,
   ⟨4, 1, []⟩,
   ⟨5, 1, range100⟩,
   ⟨5, 1, []⟩,
   ⟨5, 0, range100⟩,
   ⟨5, 0, []⟩]

/-- The wire bytes `TestKeepConnection::get_output` expects: the full
output sequence of request 1, then the full output sequence of
request 0. -/
def keepConnExpect : List Nat :=
  [1, 6, 0, 1, 0, 1, 0, 0, 50] ++
    [1, 7, 0, 1, 0, 2, 0, 0, 88, 66] ++
    [1, 6, 0, 1, 0, 0, 0, 0] ++
    [1, 7, 0, 1, 0, 0, 0, 0] ++
    [1, 3, 0, 1, 0, 8, 0, 0, 34, 68, 102, 136, 0, 0, 0, 0] ++
    [1, 6, 0, 0, 0, 1, 0, 0, 49] ++
    [1, 7, 0, 0, 0, 2, 0, 0, 88, 65] ++
    [1, 6, 0, 0, 0, 0, 0, 0] ++
    [1, 7, 0, 0, 0, 0, 0, 0] ++
    [1, 3, 0, 0, 0, 8, 0, 0, 17, 34, 51, 68, 0, 0, 0, 0]

/-- The EndRequest body belonging to a completion event. -/
def complBody : Event → List Nat
  | .invoked _ _ _ oc => endBody oc.result
  | .abortedEv _ _ => zeros8
  | .accepted _ _ _ _ => []

/-- Number of EndRequest records for id `k` in an outbound sequence. -/
def countEnd (out : List Record) (k : Nat) : Nat :=
  out.countP (fun r => r.rtype == 3 && r.id == k)

/-- Number of completion events for id `k` in a ghost log. -/
def countCompl (log : List Event) (k : Nat) : Nat :=
  log.countP (fun e => isCompl e && evId e == k)

/-- Number of acceptance events for id `k` in a ghost log. -/
def countAcc (log : List Event) (k : Nat) : Nat :=
  log.countP (isAcceptedFor k)

theorem nodup_concat {α : Type} {l : List α} {a : α}
    (h : l.Nodup) (ha : a ∉ l) : (l ++ [a]).Nodup := by
  simp [List.nodup_append, h, ha]

theorem two_le_countP {α : Type} {p : α → Bool} {l : List α} {a b : α}
    (hne : a ≠ b) (ha : a ∈ l) (hb : b ∈ l) (hpa : p a) (hpb : p b) :
    2 ≤ l.countP p := by
  induction l with
  | nil => cases ha
  | cons x t ih =>
      rw [List.countP_cons]
      rcases List.mem_cons.mp ha with rfl | ha'
      · have hb' : b ∈ t := by
          rcases List.mem_cons.mp hb with rfl | h
          · exact absurd rfl hne
          · exact h
        have h1 : 0 < t.countP p := List.countP_pos_iff.mpr ⟨b, hb', hpb⟩
        rw [if_pos hpa]
        omega
      · rcases List.mem_cons.mp hb with rfl | hb'
        · have h1 : 0 < t.countP p := List.countP_pos_iff.mpr ⟨a, ha', hpa⟩
          rw [if_pos hpb]
          omega
        · have := ih ha' hb'
          omega

theorem all_eq_singleton {α : Type} {l : List α} {a : α}
    (hall : ∀ x ∈ l, x = a) (hlen : l.length = 1) : l = [a] := by
  match l, hlen with
  | [x], _ => rw [hall x (by simp)]

theorem lookupTable_mem {t : List (Nat × ReqState)} {i : Nat}
    {st : ReqState} (h : lookupTable t i = some st) : (i, st) ∈ t := by
  induction t with
  | nil => simp [lookupTable] at h
  | cons p tl ih =>
      obtain ⟨k, st0⟩ := p
      by_cases hk : k = i
      · subst hk
        simp [lookupTable] at h
        simp [h]
      · simp [lookupTable, hk] at h
        exact List.mem_cons_of_mem _ (ih h)

theorem lookupTable_eq_none {t : List (Nat × ReqState)} {i : Nat}
    (h : lookupTable t i = none) : ∀ p ∈ t, p.1 ≠ i := by
  induction t with
  | nil => simp
  | cons q tl ih =>
      obtain ⟨k, st0⟩ := q
      by_cases hk : k = i
      · subst hk; simp [lookupTable] at h
      · simp [lookupTable, hk] at h
        intro p hp
        rcases List.mem_cons.mp hp with rfl | hp'
        · exact hk
        · exact ih h p hp'

theorem removeTable_sublist (t : List (Nat × ReqState)) (i : Nat) :
    List.Sublist (removeTable t i) t := by
  induction t with
  | nil => simp [removeTable]
  | cons p tl ih =>
      obtain ⟨k, st0⟩ := p
      by_cases hk : k = i
      · simp only [removeTable, if_pos hk]
        exact List.Sublist.cons _ ih
      · simp only [removeTable, if_neg hk]
        exact List.Sublist.cons₂ _ ih

theorem mem_removeTable {t : List (Nat × ReqState)} {i : Nat}
    {p : Nat × ReqState} (h : p ∈ removeTable t i) : p ∈ t ∧ p.1 ≠ i := by
  induction t with
  | nil => simp [removeTable] at h
  | cons q tl ih =>
      obtain ⟨k, st0⟩ := q
      by_cases hk : k = i
      · simp only [removeTable, if_pos hk] at h
        have := ih h
        exact ⟨List.mem_cons_of_mem _ this.1, this.2⟩
      · simp only [removeTable, if_neg hk] at h
        rcases List.mem_cons.mp h with rfl | h'
        · exact ⟨List.mem_cons_self _ _, hk⟩
        · have := ih h'
          exact ⟨List.mem_cons_of_mem _ this.1, this.2⟩

theorem lookupTable_removeTable (t : List (Nat × ReqState)) (i j : Nat) :
    lookupTable (removeTable t i) j =
      if j = i then none else lookupTable t j := by
  induction t with
  | nil => simp [removeTable, lookupTable]
  | cons q tl ih =>
      obtain ⟨k, st0⟩ := q
      by_cases hk : k = i
      · rw [show removeTable ((k, st0) :: tl) i = removeTable tl i by
            simp [removeTable, hk], ih]
        by_cases hj : j = i
        · simp [hj]
        · simp only [if_neg hj, lookupTable]
          rw [if_neg (by omega)]
      · rw [show removeTable ((k, st0) :: tl) i
              = (k, st0) :: removeTable tl i by simp [removeTable, hk]]
        by_cases hkj : k = j
        · simp only [lookupTable, if_pos hkj]
          rw [if_neg (by omega)]
        · simp only [lookupTable, if_neg hkj, ih]

theorem mem_setTable {t : List (Nat × ReqState)} {i : Nat}
    {st' : ReqState} {p : Nat × ReqState} (h : p ∈ setTable t i st') :
    p = (i, st') ∨ p ∈ t := by
  induction t with
  | nil => simp [setTable] at h; simp [h]
  | cons q tl ih =>
      obtain ⟨k, st0⟩ := q
      by_cases hk : k = i
      · simp only [setTable, if_pos hk] at h
        rcases List.mem_cons.mp h with rfl | h'
        · exact Or.inl rfl
        · exact Or.inr (List.mem_cons_of_mem _ h')
      · simp only [setTable, if_neg hk] at h
        rcases List.mem_cons.mp h with rfl | h'
        · exact Or.inr (List.mem_cons_self _ _)
        · rcases ih h' with h'' | h''
          · exact Or.inl h''
          · exact Or.inr (List.mem_cons_of_mem _ h'')

theorem setTable_map_fst {t : List (Nat × ReqState)} {i : Nat}
    {st st' : ReqState} (h : lookupTable t i = some st) :
    (setTable t i st').map Prod.fst = t.map Prod.fst := by
  induction t with
  | nil => simp [lookupTable] at h
  | cons q tl ih =>
      obtain ⟨k, st0⟩ := q
      by_cases hk : k = i
      · subst hk
        simp [setTable]
      · simp only [lookupTable, if_neg hk] at h
        simp [setTable, hk, ih h]

theorem setTable_map_n {t : List (Nat × ReqState)} {i : Nat}
    {st st' : ReqState} (h : lookupTable t i = some st)
    (hn : st'.n = st.n) :
    (setTable t i st').map (fun p => p.2.n) =
      t.map (fun p => p.2.n) := by
  induction t with
  | nil => simp [lookupTable] at h
  | cons q tl ih =>
      obtain ⟨k, st0⟩ := q
      by_cases hk : k = i
      · simp only [lookupTable, if_pos hk, Option.some.injEq] at h
        subst h
        simp [setTable, hk, hn]
      · simp only [lookupTable, if_neg hk] at h
        simp [setTable, hk, ih h]

theorem lookupTable_setTable {t : List (Nat × ReqState)} {i : Nat}
    {st st' : ReqState} (h : lookupTable t i = some st) (j : Nat) :
    lookupTable (setTable t i st') j =
      if j = i then some st' else lookupTable t j := by
  induction t with
  | nil => simp [lookupTable] at h
  | cons q tl ih =>
      obtain ⟨k, st0⟩ := q
      by_cases hk : k = i
      · by_cases hj : j = i
        · simp [setTable, lookupTable, hk, hj]
        · simp only [setTable, if_pos hk, lookupTable, if_neg hj]
          rw [if_neg (by omega), if_neg (by omega)]
      · simp only [lookupTable, if_neg hk] at h
        by_cases hkj : k = j
        · simp only [setTable, if_neg hk, lookupTable, if_pos hkj]
          rw [if_neg (by omega)]
        · simp only [setTable, if_neg hk, lookupTable,
            if_neg hkj, ih h]

theorem mem_writeRecords {k : Nat} {ws : List (Bool × List Nat)}
    {r : Record} (h : r ∈ writeRecords k ws) :
    (r.rtype = 6 ∨ r.rtype = 7) ∧ r.id = k := by
  simp only [writeRecords, List.mem_flatMap, List.mem_map] at h
  obtain ⟨w, _, c, _, rfl⟩ := h
  by_cases hw : w.1 <;> simp [hw]

theorem mem_handlerRecords {k : Nat} {oc : HandlerOutcome} {r : Record}
    (h : r ∈ handlerRecords k oc) :
    r.id = k ∧ (r.rtype = 3 ∨ r.rtype = 6 ∨ r.rtype = 7) ∧
      (r.rtype = 3 → r = ⟨3, k, endBody oc.result⟩) := by
  simp only [handlerRecords, List.mem_append] at h
  rcases h with h | h
  · have := mem_writeRecords h
    refine ⟨this.2, by tauto, ?_⟩
    intro h3
    rcases this.1 with h' | h' <;> omega
  · simp only [List.mem_cons, List.not_mem_nil, or_false] at h
    rcases h with rfl | rfl | rfl <;> simp

theorem countEnd_append (a b : List Record) (k : Nat) :
    countEnd (a ++ b) k = countEnd a k + countEnd b k :=
  List.countP_append _ _ _

theorem countCompl_append (a b : List Event) (k : Nat) :
    countCompl (a ++ b) k = countCompl a k + countCompl b k :=
  List.countP_append _ _ _

theorem countAcc_append (a b : List Event) (k : Nat) :
    countAcc (a ++ b) k = countAcc a k + countAcc b k :=
  List.countP_append _ _ _

theorem countEnd_writeRecords (k : Nat) (ws : List (Bool × List Nat))
    (j : Nat) : countEnd (writeRecords k ws) j = 0 := by
  apply List.countP_eq_zero.mpr
  intro r hr
  have := (mem_writeRecords hr).1
  simp only [Bool.and_eq_true, beq_iff_eq]
  rintro ⟨h3, -⟩
  omega

theorem countEnd_handlerRecords (k : Nat) (oc : HandlerOutcome) (j : Nat) :
    countEnd (handlerRecords k oc) j = if k = j then 1 else 0 := by
  simp only [handlerRecords]
  rw [countEnd_append, countEnd_writeRecords]
  by_cases hk : k = j <;> simp [countEnd, hk]

theorem isAcceptedFor_false_of_compl (k : Nat) {e : Event}
    (h : isCompl e = true) : isAcceptedFor k e = false := by
  cases e <;> simp_all [isCompl, isAcceptedFor]

theorem nodup_map_inj {α β : Type} {f : α → β} {l : List α}
    (h : (l.map f).Nodup) {a b : α} (ha : a ∈ l) (hb : b ∈ l)
    (hf : f a = f b) : a = b :=
  List.inj_on_of_nodup_map h ha hb hf

theorem infix_of_infix_append {α : Type} {l l₂ : List α} (x : List α)
    (h : l <:+: l₂) : l <:+: l₂ ++ x := by
  obtain ⟨s, t, ht⟩ := h
  exact ⟨s, t ++ x, by rw [← ht]; simp⟩

theorem infix_append_self {α : Type} (l x : List α) : x <:+: l ++ x :=
  ⟨l, [], by simp⟩

/-- The connection invariant maintained by every step of the modelled
engine, tying the outbound records to the ghost event log. -/
structure ConnInv (s : ConnState) : Prop where
  keysND : (s.table.map Prod.fst).Nodup
  nsND : (s.table.map (fun p => p.2.n)).Nodup
  nLt : ∀ p ∈ s.table, p.2.n < s.counter
  evLt : ∀ e ∈ s.log, evN e < s.counter
  complFree : ∀ e ∈ s.log, isCompl e = true → ∀ p ∈ s.table, p.2.n ≠ evN e
  complND : ((s.log.filter (fun e => isCompl e)).map evN).Nodup
  outTypes : ∀ r ∈ s.out,
    r.rtype = 3 ∨ r.rtype = 6 ∨ r.rtype = 7 ∨ r.rtype = 10 ∨ r.rtype = 11
  countInv : ∀ k, countEnd s.out k = countCompl s.log k
  countActive : ∀ k,
    countCompl s.log k + (if hasKey s.table k then 1 else 0) =
      countAcc s.log k
  endBodies : ∀ r ∈ s.out, r.rtype = 3 →
    ∃ e ∈ s.log, isCompl e = true ∧ evId e = r.id ∧ r.body = complBody e
  stdSrc : ∀ r ∈ s.out, r.rtype = 6 ∨ r.rtype = 7 →
    ∃ e ∈ s.log, isInvokedFor r.id e = true
  invSeq : ∀ e ∈ s.log, ∀ n k view oc, e = Event.invoked n k view oc →
    handlerRecords k oc <:+: s.out
  abortEnd : ∀ e ∈ s.log, ∀ n k, e = Event.abortedEv n k →
    (⟨3, k, zeros8⟩ : Record) ∈ s.out

theorem inv_initConn : ConnInv initConn := by
  constructor <;> simp [initConn, countEnd, countCompl, countAcc, hasKey,
    lookupTable]

theorem inv_set_fatal {s : ConnState} (hInv : ConnInv s)
    (f : Option EngineError) : ConnInv { s with fatal := f } := by
  obtain ⟨kND, nND, nLt, evLt, cFree, cND, oTy, cInv, cAct, eB, sS, iSeq,
    aE⟩ := hInv
  exact ⟨kND, nND, nLt, evLt, cFree, cND, oTy, cInv, cAct, eB, sS, iSeq, aE⟩

/-- Preservation of the invariant by a completion: remove id `i` from the
table, append the records `newRecs` for that id, and log one completion
event `ev` belonging to the removed incarnation. -/
theorem inv_complete {s : ConnState} {i : Nat} {st : ReqState}
    (hInv : ConnInv s) (hl : lookupTable s.table i = some st)
    {newRecs : List Record} {ev : Event} {b : Bool}
    (hevC : isCompl ev = true) (hevN : evN ev = st.n) (hevI : evId ev = i)
    (hTy : ∀ r ∈ newRecs, r.rtype = 3 ∨ r.rtype = 6 ∨ r.rtype = 7)
    (hid : ∀ r ∈ newRecs, r.id = i)
    (hcnt : ∀ k, countEnd newRecs k = if i = k then 1 else 0)
    (h3 : ∀ r ∈ newRecs, r.rtype = 3 → r.body = complBody ev)
    (hstd : (∃ r ∈ newRecs, r.rtype = 6 ∨ r.rtype = 7) →
      isInvokedFor i ev = true)
    (hseq : ∀ n k view oc, ev = Event.invoked n k view oc →
      handlerRecords k oc = newRecs)
    (habort : ∀ n k, ev = Event.abortedEv n k →
      (⟨3, k, zeros8⟩ : Record) ∈ newRecs) :
    ConnInv { s with
              table := removeTable s.table i,
              out := s.out ++ newRecs,
              log := s.log ++ [ev],
              closed := b } := by
  obtain ⟨kND, nND, nLt, evLt, cFree, cND, oTy, cInv, cAct, eB, sS, iSeq,
    aE⟩ := hInv
  have hmem : (i, st) ∈ s.table := lookupTable_mem hl
  have hstn : st.n < s.counter := nLt _ hmem
  have hsub := removeTable_sublist s.table i
  refine ⟨?_, ?_, ?_, ?_, ?_, ?_, ?_, ?_, ?_, ?_, ?_, ?_, ?_⟩
  · exact List.Nodup.sublist (hsub.map Prod.fst) kND
  · exact List.Nodup.sublist (hsub.map (fun p => p.2.n)) nND
  · intro p hp
    exact nLt p (mem_removeTable hp).1
  · intro e he
    rcases List.mem_append.mp he with he' | he'
    · exact evLt e he'
    · simp only [List.mem_singleton] at he'
      subst he'
      rw [hevN]
      exact hstn
  · intro e he heC p hp
    obtain ⟨hpT, hpI⟩ := mem_removeTable hp
    rcases List.mem_append.mp he with he' | he'
    · exact cFree e he' heC p hpT
    · simp only [List.mem_singleton] at he'
      subst he'
      rw [hevN]
      intro hpn
      exact hpI (congrArg Prod.fst
        (nodup_map_inj nND hpT hmem hpn))
  · rw [List.filter_append, List.map_append]
    simp only [List.filter_cons, hevC, List.filter_nil, List.map_cons,
      List.map_nil, if_pos]
    apply nodup_concat cND
    intro hmemN
    obtain ⟨e, heF, hee⟩ := List.mem_map.mp hmemN
    obtain ⟨heL, heC⟩ := List.mem_filter.mp heF
    exact cFree e heL heC (i, st) hmem (by rw [hee, hevN])
  · intro r hr
    rcases List.mem_append.mp hr with hr' | hr'
    · exact oTy r hr'
    · rcases hTy r hr' with h | h | h <;> simp [h]
  · intro k
    rw [countEnd_append, countCompl_append, cInv]
    simp only [countCompl, List.countP_cons, List.countP_nil,
      Bool.and_eq_true, beq_iff_eq, hevC, hevI, true_and]
    rw [hcnt]
    by_cases hk : i = k <;> simp [hk]
  · intro k
    dsimp only
    rw [countCompl_append, countAcc_append]
    have hsing : countCompl [ev] k = if i = k then 1 else 0 := by
      by_cases hk : i = k <;> simp [countCompl, hevC, hevI, hk]
    have hacc0 : countAcc [ev] k = 0 := by
      simp [countAcc, isAcceptedFor_false_of_compl k hevC]
    rw [hsing, hacc0]
    have hthis := cAct k
    by_cases hk : k = i
    · subst hk
      have h1 : hasKey s.table k = true := by
        simp [hasKey, hl]
      have h2 : hasKey (removeTable s.table k) k = false := by
        simp [hasKey, lookupTable_removeTable]
      rw [h1] at hthis
      rw [h2]
      simp at hthis ⊢
      omega
    · have h2 : hasKey (removeTable s.table i) k = hasKey s.table k := by
        simp [hasKey, lookupTable_removeTable, hk]
      rw [h2, if_neg (by omega : ¬ i = k)]
      omega
  · intro r hr h3'
    rcases List.mem_append.mp hr with hr' | hr'
    · obtain ⟨e, heL, he⟩ := eB r hr' h3'
      exact ⟨e, List.mem_append_left _ heL, he⟩
    · refine ⟨ev, List.mem_append_right _ (by simp), hevC, ?_, ?_⟩
      · rw [hevI, hid r hr']
      · exact h3 r hr' h3'
  · intro r hr h67
    rcases List.mem_append.mp hr with hr' | hr'
    · obtain ⟨e, heL, he⟩ := sS r hr' h67
      exact ⟨e, List.mem_append_left _ heL, he⟩
    · refine ⟨ev, List.mem_append_right _ (by simp), ?_⟩
      rw [hid r hr']
      exact hstd ⟨r, hr', h67⟩
  · intro e he n k view oc hee
    rcases List.mem_append.mp he with he' | he'
    · exact infix_of_infix_append _ (iSeq e he' n k view oc hee)
    · simp only [List.mem_singleton] at he'
      subst he'
      rw [hseq n k view oc hee]
      exact infix_append_self _ _
  · intro e he n k hee
    rcases List.mem_append.mp he with he' | he'
    · exact List.mem_append_left _ (aE e he' n k hee)
    · simp only [List.mem_singleton] at he'
      subst he'
      exact List.mem_append_right _ (habort n k hee)

theorem inv_finishReq {h : Handler} {s : ConnState} {i : Nat}
    {st st' : ReqState} (hInv : ConnInv s)
    (hl : lookupTable s.table i = some st) (hn : st'.n = st.n) :
    ConnInv (finishReq h s i st') := by
  show ConnInv { s with
                 table := removeTable s.table i,
                 out := s.out ++ handlerRecords i (h (mkView i st')),
                 log := s.log ++
                   [Event.invoked st'.n i (mkView i st') (h (mkView i st'))],
                 closed := !st'.keepConn }
  apply inv_complete hInv hl
  · rfl
  · exact hn
  · rfl
  · intro r hr
    exact (mem_handlerRecords hr).2.1
  · intro r hr
    exact (mem_handlerRecords hr).1
  · intro k
    exact countEnd_handlerRecords i _ k
  · intro r hr h3
    have := (mem_handlerRecords hr).2.2 h3
    simp [this, complBody]
  · intro _
    simp [isInvokedFor]
  · intro n k view oc hee
    injection hee with h1 h2 h3 h4
    rw [← h2, ← h4]
  · intro n k hee
    simp at hee

theorem inv_putAndCheck {h : Handler} {s : ConnState} {i : Nat}
    {st st' : ReqState} (hInv : ConnInv s)
    (hl : lookupTable s.table i = some st) (hn : st'.n = st.n) :
    ConnInv (putAndCheck h s i st') := by
  unfold putAndCheck
  split
  · exact inv_finishReq hInv hl hn
  · obtain ⟨kND, nND, nLt, evLt, cFree, cND, oTy, cInv, cAct, eB, sS,
      iSeq, aE⟩ := hInv
    have hmem := lookupTable_mem hl
    refine ⟨?_, ?_, ?_, evLt, ?_, cND, oTy, cInv, ?_, eB, sS, iSeq, aE⟩
    · dsimp only
      rw [setTable_map_fst hl]
      exact kND
    · dsimp only
      rw [setTable_map_n hl hn]
      exact nND
    · intro p hp
      dsimp only at hp ⊢
      rcases mem_setTable hp with rfl | hp'
      · simpa [hn] using nLt _ hmem
      · exact nLt p hp'
    · intro e he heC p hp
      dsimp only at hp ⊢
      rcases mem_setTable hp with rfl | hp'
      · simpa [hn] using cFree e he heC _ hmem
      · exact cFree e he heC p hp'
    · intro k
      dsimp only
      have hk : hasKey (setTable s.table i st') k = hasKey s.table k := by
        by_cases hki : k = i
        · simp [hasKey, lookupTable_setTable hl, hki, hl]
        · simp [hasKey, lookupTable_setTable hl, hki]
      rw [hk]
      exact cAct k

theorem inv_handleBegin {s : ConnState} {i : Nat} {body : List Nat}
    (hInv : ConnInv s) : ConnInv (handleBegin s i body) := by
  by_cases hrole : (body.getD 0 0 * 256 + body.getD 1 0 = 1 ∨
      body.getD 0 0 * 256 + body.getD 1 0 = 2 ∨
      body.getD 0 0 * 256 + body.getD 1 0 = 3)
  · cases hE : lookupTable s.table i with
    | some st =>
        have heq : handleBegin s i body = s := by
          simp only [handleBegin]
          rw [if_pos hrole, hE]
        rw [heq]
        exact hInv
    | none =>
        have heq : handleBegin s i body =
            { s with
              table := (i, newReqState s.counter
                (body.getD 0 0 * 256 + body.getD 1 0)
                (decide (body.getD 2 0 % 2 = 1))) :: s.table,
              log := s.log ++ [Event.accepted s.counter i
                (body.getD 0 0 * 256 + body.getD 1 0)
                (decide (body.getD 2 0 % 2 = 1))],
              counter := s.counter + 1 } := by
          simp only [handleBegin]
          rw [if_pos hrole, hE]
        rw [heq]
        obtain ⟨kND, nND, nLt, evLt, cFree, cND, oTy, cInv, cAct, eB, sS,
          iSeq, aE⟩ := hInv
        have hnewn : (newReqState s.counter
            (body.getD 0 0 * 256 + body.getD 1 0)
            (decide (body.getD 2 0 % 2 = 1))).n = s.counter := rfl
        refine ⟨?_, ?_, ?_, ?_, ?_, ?_, oTy, ?_, ?_, ?_, ?_, ?_, ?_⟩
        · dsimp only
          rw [List.map_cons]
          refine List.nodup_cons.mpr ⟨?_, kND⟩
          intro hmem
          obtain ⟨p, hp, hpi⟩ := List.mem_map.mp hmem
          exact lookupTable_eq_none hE p hp hpi
        · dsimp only
          rw [List.map_cons]
          refine List.nodup_cons.mpr ⟨?_, nND⟩
          intro hmem
          obtain ⟨p, hp, hpn⟩ := List.mem_map.mp hmem
          rw [hnewn] at hpn
          exact absurd hpn (by have := nLt p hp; omega)
        · intro p hp
          dsimp only at hp ⊢
          rcases List.mem_cons.mp hp with rfl | hp2
          · rw [hnewn]
            omega
          · have := nLt p hp2
            omega
        · intro e he
          dsimp only at he ⊢
          rcases List.mem_append.mp he with he2 | he2
          · have := evLt e he2
            omega
          · simp only [List.mem_singleton] at he2
            subst he2
            simp only [evN]
            omega
        · intro e he heC p hp
          dsimp only at he hp ⊢
          rcases List.mem_append.mp he with he2 | he2
          · rcases List.mem_cons.mp hp with rfl | hp2
            · have := evLt e he2
              rw [hnewn]
              omega
            · exact cFree e he2 heC p hp2
          · simp only [List.mem_singleton] at he2
            subst he2
            simp [isCompl] at heC
        · dsimp only
          rw [List.filter_append]
          simp only [List.filter_cons, List.filter_nil, isCompl,
            Bool.false_eq_true, if_false, List.append_nil]
          exact cND
        · intro k
          dsimp only
          rw [countCompl_append]
          have h0 : countCompl [Event.accepted s.counter i
              (body.getD 0 0 * 256 + body.getD 1 0)
              (decide (body.getD 2 0 % 2 = 1))] k = 0 := by
            simp [countCompl, isCompl]
          rw [h0]
          simpa using cInv k
        · intro k
          dsimp only
          rw [countCompl_append, countAcc_append]
          have h1 : countCompl [Event.accepted s.counter i
              (body.getD 0 0 * 256 + body.getD 1 0)
              (decide (body.getD 2 0 % 2 = 1))] k = 0 := by
            simp [countCompl, isCompl]
          have h2 : countAcc [Event.accepted s.counter i
              (body.getD 0 0 * 256 + body.getD 1 0)
              (decide (body.getD 2 0 % 2 = 1))] k =
              if i = k then 1 else 0 := by
            by_cases hk : i = k <;> simp [countAcc, isAcceptedFor, hk]
          rw [h1, h2]
          have h3 : hasKey ((i, newReqState s.counter
              (body.getD 0 0 * 256 + body.getD 1 0)
              (decide (body.getD 2 0 % 2 = 1))) :: s.table) k =
              if i = k then true else hasKey s.table k := by
            by_cases hk : i = k <;> simp [hasKey, lookupTable, hk]
          rw [h3]
          have h4 := cAct k
          by_cases hk : i = k
          · subst hk
            rw [if_pos rfl, if_pos rfl]
            have h5 : hasKey s.table i = false := by
              simp [hasKey, hE]
            rw [h5] at h4
            simp at h4 ⊢
            omega
          · rw [if_neg hk, if_neg hk]
            omega
        · intro r hr h3
          dsimp only at hr ⊢
          obtain ⟨e, heL, he⟩ := eB r hr h3
          exact ⟨e, List.mem_append_left _ heL, he⟩
        · intro r hr h67
          dsimp only at hr ⊢
          obtain ⟨e, heL, he⟩ := sS r hr h67
          exact ⟨e, List.mem_append_left _ heL, he⟩
        · intro e he n k view oc hee
          dsimp only at he ⊢
          rcases List.mem_append.mp he with he2 | he2
          · exact iSeq e he2 n k view oc hee
          · simp only [List.mem_singleton] at he2
            subst he2
            simp at hee
        · intro e he n k hee
          dsimp only at he ⊢
          rcases List.mem_append.mp he with he2 | he2
          · exact aE e he2 n k hee
          · simp only [List.mem_singleton] at he2
            subst he2
            simp at hee
  · have heq : handleBegin s i body =
        { s with fatal := some EngineError.invalidRoleNumber } := by
      simp only [handleBegin]
      rw [if_neg hrole]
    rw [heq]
    exact inv_set_fatal hInv _

theorem inv_handleAbort {s : ConnState} {i : Nat} (hInv : ConnInv s) :
    ConnInv (handleAbort s i) := by
  cases hE : lookupTable s.table i with
  | none => simpa [handleAbort, hE] using hInv
  | some st =>
      have heq : handleAbort s i =
          { s with
            table := removeTable s.table i,
            out := s.out ++ [⟨3, i, zeros8⟩],
            log := s.log ++ [Event.abortedEv st.n i],
            closed := !st.keepConn } := by
        simp [handleAbort, hE]
      rw [heq]
      apply inv_complete hInv hE
      · rfl
      · rfl
      · rfl
      · intro r hr
        simp only [List.mem_singleton] at hr
        subst hr
        simp
      · intro r hr
        simp only [List.mem_singleton] at hr
        subst hr
        rfl
      · intro k
        by_cases hk : i = k <;> simp [countEnd, hk]
      · intro r hr h3
        simp only [List.mem_singleton] at hr
        subst hr
        rfl
      · rintro ⟨r, hr, h67⟩
        simp only [List.mem_singleton] at hr
        subst hr
        simp at h67
      · intro n k view oc hee
        simp at hee
      · intro n k hee
        injection hee with h1 h2
        subst h2
        simp

theorem inv_handleParams {h : Handler} {s : ConnState} {i : Nat}
    {body : List Nat} (hInv : ConnInv s) :
    ConnInv (handleParams h s i body) := by
  cases hE : lookupTable s.table i with
  | none => simpa [handleParams, hE] using hInv
  | some st =>
      by_cases hps : st.params.isSome
      · simpa [handleParams, hE, hps] using hInv
      · by_cases hb : body.isEmpty
        · cases hD : decodeNV st.paramsBuf with
          | none =>
              have heq : handleParams h s i body =
                  { s with fatal := some EngineError.malformedParams } := by
                simp [handleParams, hE, hps, hb, hD]
              rw [heq]
              exact inv_set_fatal hInv _
          | some ps =>
              have heq : handleParams h s i body = putAndCheck h s i
                  { st with params := some (buildParams ps) } := by
                simp [handleParams, hE, hps, hb, hD]
              rw [heq]
              exact inv_putAndCheck hInv hE rfl
        · have heq : handleParams h s i body = putAndCheck h s i
              { st with paramsBuf := st.paramsBuf ++ body } := by
            simp [handleParams, hE, hps, hb]
          rw [heq]
          exact inv_putAndCheck hInv hE rfl

theorem inv_handleStdin {h : Handler} {s : ConnState} {i : Nat}
    {body : List Nat} (hInv : ConnInv s) :
    ConnInv (handleStdin h s i body) := by
  cases hE : lookupTable s.table i with
  | none => simpa [handleStdin, hE] using hInv
  | some st =>
      by_cases hc : st.stdinClosed
      · simpa [handleStdin, hE, hc] using hInv
      · by_cases hb : body.isEmpty
        · have heq : handleStdin h s i body = putAndCheck h s i
              { st with stdinClosed := true } := by
            simp [handleStdin, hE, hc, hb]
          rw [heq]
          exact inv_putAndCheck hInv hE rfl
        · have heq : handleStdin h s i body = putAndCheck h s i
              { st with stdin := st.stdin ++ body } := by
            simp [handleStdin, hE, hc, hb]
          rw [heq]
          exact inv_putAndCheck hInv hE rfl

theorem inv_handleData {h : Handler} {s : ConnState} {i : Nat}
    {body : List Nat} (hInv : ConnInv s) :
    ConnInv (handleData h s i body) := by
  cases hE : lookupTable s.table i with
  | none => simpa [handleData, hE] using hInv
  | some st =>
      by_cases hc : st.dataClosed
      · simpa [handleData, hE, hc] using hInv
      · by_cases hb : body.isEmpty
        · have heq : handleData h s i body = putAndCheck h s i
              { st with dataClosed := true } := by
            simp [handleData, hE, hc, hb]
          rw [heq]
          exact inv_putAndCheck hInv hE rfl
        · have heq : handleData h s i body = putAndCheck h s i
              { st with data := st.data ++ body } := by
            simp [handleData, hE, hc, hb]
          rw [heq]
          exact inv_putAndCheck hInv hE rfl

theorem inv_append_reply {s : ConnState} (hInv : ConnInv s) {t : Nat}
    (i : Nat) (bd : List Nat) (ht : t = 10 ∨ t = 11) :
    ConnInv { s with out := s.out ++ [⟨t, i, bd⟩] } := by
  obtain ⟨kND, nND, nLt, evLt, cFree, cND, oTy, cInv, cAct, eB, sS, iSeq,
    aE⟩ := hInv
  refine ⟨kND, nND, nLt, evLt, cFree, cND, ?_, ?_, cAct, ?_, ?_, ?_, ?_⟩
  · intro r hr
    dsimp only at hr
    rcases List.mem_append.mp hr with hr' | hr'
    · exact oTy r hr'
    · simp only [List.mem_singleton] at hr'
      subst hr'
      rcases ht with h | h <;> simp [h]
  · intro k
    dsimp only
    rw [countEnd_append]
    have : countEnd [(⟨t, i, bd⟩ : Record)] k = 0 := by
      rcases ht with h | h <;> simp [countEnd, h]
    rw [this]
    simpa using cInv k
  · intro r hr h3
    dsimp only at hr ⊢
    rcases List.mem_append.mp hr with hr' | hr'
    · exact eB r hr' h3
    · simp only [List.mem_singleton] at hr'
      subst hr'
      simp only at h3
      omega
  · intro r hr h67
    dsimp only at hr ⊢
    rcases List.mem_append.mp hr with hr' | hr'
    · exact sS r hr' h67
    · simp only [List.mem_singleton] at hr'
      subst hr'
      simp only at h67
      rcases h67 with h | h <;> omega
  · intro e he n k view oc hee
    dsimp only
    exact infix_of_infix_append _ (iSeq e he n k view oc hee)
  · intro e he n k hee
    dsimp only
    exact List.mem_append_left _ (aE e he n k hee)

theorem inv_handleGetValues {cfg : Config} {s : ConnState} {i : Nat}
    {body : List Nat} (hInv : ConnInv s) :
    ConnInv (handleGetValues cfg s i body) := by
  cases hD : decodeNV body with
  | none =>
      have heq : handleGetValues cfg s i body =
          { s with fatal := some EngineError.malformedParams } := by
        simp [handleGetValues, hD]
      rw [heq]
      exact inv_set_fatal hInv _
  | some ps =>
      have heq : handleGetValues cfg s i body =
          { s with out := s.out ++ [⟨10, i, encodeNV (replyPairs cfg ps)⟩] } := by
        simp [handleGetValues, hD]
      rw [heq]
      exact inv_append_reply hInv i _ (Or.inl rfl)

theorem inv_emitUnknown {s : ConnState} {t i : Nat} (hInv : ConnInv s) :
    ConnInv (emitUnknown s t i) :=
  inv_append_reply hInv i _ (Or.inr rfl)

theorem inv_step {cfg : Config} {h : Handler} {s : ConnState} {r : Record}
    (hInv : ConnInv s) : ConnInv (step cfg h s r) := by
  unfold step
  by_cases hf : (s.fatal.isSome || s.closed) = true
  · rw [if_pos hf]
    exact hInv
  · rw [if_neg hf]
    by_cases e1 : r.rtype = 1
    · rw [if_pos e1]
      exact inv_handleBegin hInv
    rw [if_neg e1]
    by_cases e2 : r.rtype = 2
    · rw [if_pos e2]
      exact inv_handleAbort hInv
    rw [if_neg e2]
    by_cases e4 : r.rtype = 4
    · rw [if_pos e4]
      exact inv_handleParams hInv
    rw [if_neg e4]
    by_cases e5 : r.rtype = 5
    · rw [if_pos e5]
      exact inv_handleStdin hInv
    rw [if_neg e5]
    by_cases e8 : r.rtype = 8
    · rw [if_pos e8]
      exact inv_handleData hInv
    rw [if_neg e8]
    by_cases e9 : r.rtype = 9
    · rw [if_pos e9]
      exact inv_handleGetValues hInv
    rw [if_neg e9]
    by_cases e11 : (1 ≤ r.rtype && r.rtype ≤ 11) = true
    · rw [if_pos e11]
      exact hInv
    · rw [if_neg e11]
      exact inv_emitUnknown hInv

theorem inv_foldl (cfg : Config) (h : Handler) (l : List Record)
    (s : ConnState) (hs : ConnInv s) :
    ConnInv (List.foldl (step cfg h) s l) := by
  induction l generalizing s with
  | nil => exact hs
  | cons r t ih => exact ih _ (inv_step hs)

theorem inv_runConn (cfg : Config) (h : Handler) (input : List Record) :
    ConnInv (runConn cfg h input) :=
  inv_foldl cfg h input initConn inv_initConn

theorem step_fatal {cfg : Config} {h : Handler} {s : ConnState}
    {r : Record} (hf : s.fatal.isSome = true) : step cfg h s r = s := by
  unfold step
  rw [if_pos (by simp [hf])]

theorem foldl_fatal {cfg : Config} {h : Handler} (l : List Record)
    {s : ConnState} (hf : s.fatal.isSome = true) :
    List.foldl (step cfg h) s l = s := by
  induction l with
  | nil => rfl
  | cons r t ih =>
      rw [List.foldl_cons, step_fatal hf]
      exact ih

theorem runConn_append (cfg : Config) (h : Handler) (a b : List Record) :
    runConn cfg h (a ++ b) =
      List.foldl (step cfg h) (runConn cfg h a) b := by
  unfold runConn
  rw [List.foldl_append]

theorem out_handleBegin (s : ConnState) (i : Nat) (body : List Nat) :
    (handleBegin s i body).out = s.out := by
  by_cases hrole : (body.getD 0 0 * 256 + body.getD 1 0 = 1 ∨
      body.getD 0 0 * 256 + body.getD 1 0 = 2 ∨
      body.getD 0 0 * 256 + body.getD 1 0 = 3)
  · cases hE : lookupTable s.table i with
    | some st =>
        have heq : handleBegin s i body = s := by
          simp only [handleBegin]
          rw [if_pos hrole, hE]
        rw [heq]
    | none =>
        have heq : handleBegin s i body =
            { s with
              table := (i, newReqState s.counter
                (body.getD 0 0 * 256 + body.getD 1 0)
                (decide (body.getD 2 0 % 2 = 1))) :: s.table,
              log := s.log ++ [Event.accepted s.counter i
                (body.getD 0 0 * 256 + body.getD 1 0)
                (decide (body.getD 2 0 % 2 = 1))],
              counter := s.counter + 1 } := by
          simp only [handleBegin]
          rw [if_pos hrole, hE]
        rw [heq]
  · have heq : handleBegin s i body =
        { s with fatal := some EngineError.invalidRoleNumber } := by
      simp only [handleBegin]
      rw [if_neg hrole]
    rw [heq]

theorem mem_out_handleAbort {s : ConnState} {i : Nat} {q : Record}
    (hq : q ∈ (handleAbort s i).out) : q ∈ s.out ∨ q.rtype = 3 := by
  unfold handleAbort at hq
  split at hq
  · exact Or.inl hq
  · dsimp only at hq
    rcases List.mem_append.mp hq with h | h
    · exact Or.inl h
    · simp only [List.mem_singleton] at h
      subst h
      simp

theorem mem_out_putAndCheck {h : Handler} {s : ConnState} {i : Nat}
    {st' : ReqState} {q : Record} (hq : q ∈ (putAndCheck h s i st').out) :
    q ∈ s.out ∨ q.rtype = 3 ∨ q.rtype = 6 ∨ q.rtype = 7 := by
  unfold putAndCheck at hq
  split at hq
  · simp only [finishReq] at hq
    rcases List.mem_append.mp hq with h1 | h1
    · exact Or.inl h1
    · exact Or.inr (mem_handlerRecords h1).2.1
  · exact Or.inl hq

theorem mem_out_handleParams {h : Handler} {s : ConnState} {i : Nat}
    {body : List Nat} {q : Record}
    (hq : q ∈ (handleParams h s i body).out) :
    q ∈ s.out ∨ q.rtype = 3 ∨ q.rtype = 6 ∨ q.rtype = 7 := by
  unfold handleParams at hq
  split at hq
  · exact Or.inl hq
  · split at hq
    · exact Or.inl hq
    · split at hq
      · split at hq
        · exact Or.inl hq
        · exact mem_out_putAndCheck hq
      · exact mem_out_putAndCheck hq

theorem mem_out_handleStdin {h : Handler} {s : ConnState} {i : Nat}
    {body : List Nat} {q : Record}
    (hq : q ∈ (handleStdin h s i body).out) :
    q ∈ s.out ∨ q.rtype = 3 ∨ q.rtype = 6 ∨ q.rtype = 7 := by
  unfold handleStdin at hq
  split at hq
  · exact Or.inl hq
  · split at hq
    · exact Or.inl hq
    · split at hq
      · exact mem_out_putAndCheck hq
      · exact mem_out_putAndCheck hq

theorem mem_out_handleData {h : Handler} {s : ConnState} {i : Nat}
    {body : List Nat} {q : Record}
    (hq : q ∈ (handleData h s i body).out) :
    q ∈ s.out ∨ q.rtype = 3 ∨ q.rtype = 6 ∨ q.rtype = 7 := by
  unfold handleData at hq
  split at hq
  · exact Or.inl hq
  · split at hq
    · exact Or.inl hq
    · split at hq
      · exact mem_out_putAndCheck hq
      · exact mem_out_putAndCheck hq

theorem step_mgmt {cfg : Config} {h : Handler} {s : ConnState}
    {r : Record} {k : Nat}
    (hout : ∀ q ∈ s.out, q.rtype = 10 ∨ q.rtype = 11 → q.id ≠ k)
    (hr : r.id = k → r.rtype = 1 ∨ r.rtype = 2 ∨ r.rtype = 4 ∨
      r.rtype = 5 ∨ r.rtype = 8) :
    ∀ q ∈ (step cfg h s r).out, q.rtype = 10 ∨ q.rtype = 11 → q.id ≠ k := by
  intro q hq hq1011
  unfold step at hq
  split at hq
  · exact hout q hq hq1011
  · split at hq
    · rw [out_handleBegin] at hq
      exact hout q hq hq1011
    · split at hq
      · rcases mem_out_handleAbort hq with h1 | h1
        · exact hout q h1 hq1011
        · omega
      · split at hq
        · rcases mem_out_handleParams hq with h1 | h1
          · exact hout q h1 hq1011
          · omega
        · split at hq
          · rcases mem_out_handleStdin hq with h1 | h1
            · exact hout q h1 hq1011
            · omega
          · split at hq
            · rcases mem_out_handleData hq with h1 | h1
              · exact hout q h1 hq1011
              · omega
            · split at hq
              · unfold handleGetValues at hq
                split at hq
                · exact hout q hq hq1011
                · dsimp only at hq
                  rcases List.mem_append.mp hq with h1 | h1
                  · exact hout q h1 hq1011
                  · simp only [List.mem_singleton] at h1
                    subst h1
                    intro hik
                    have := hr hik
                    omega
              · split at hq
                · exact hout q hq hq1011
                · unfold emitUnknown at hq
                  dsimp only at hq
                  rcases List.mem_append.mp hq with h1 | h1
                  · exact hout q h1 hq1011
                  · simp only [List.mem_singleton] at h1
                    subst h1
                    intro hik
                    rcases hr hik with h2 | h2 | h2 | h2 | h2 <;>
                      simp_all

set_option maxRecDepth 10000

/-- The raw inbound bytes of `TestKeepConnection::get_input`. -/
def keepConnBytes : List Nat :=
  createRecord 1 0 9 [0, 1, 1, 0, 0, 0, 0, 0] ++
    createRecord 4 0 6 ([3, 1] ++ strBytes "IDX" ++ strBytes "1") ++
    createRecord 1 1 9 [0, 1, 1, 0, 0, 0, 0, 0] ++
    createRecord 4 0 0 [] ++
    createRecord 4 1 6 ([3, 1] ++ strBytes "IDX" ++ strBytes "2") ++
    createRecord 4 1 0 [] ++
    createRecord 5 1 3 range100 ++
    createRecord 5 1 3 [] ++
    createRecord 5 0 3 range100 ++
    createRecord 5 0 3 []

/-- The raw inbound bytes of `TestAbortContinue::get_input`. -/
def abortContinueBytes : List Nat :=
  createRecord 1 0 9 [0, 1, 1, 0, 0, 0, 0, 0] ++
    createRecord 4 0 6 ([3, 1] ++ strBytes "IDX" ++ strBytes "0") ++
    createRecord 1 1 9 [0, 1, 1, 0, 0, 0, 0, 0] ++
    createRecord 4 0 0 [] ++
    createRecord 4 1 6 ([3, 1] ++ strBytes "IDX" ++ strBytes "1") ++
    createRecord 4 1 0 [] ++
    createRecord 5 1 3 range100 ++
    createRecord 2 1 0 [] ++
    createRecord 5 0 3 range100 ++
    createRecord 5 0 3 []

/-- The raw inbound bytes of `TestGetValues::get_input`. -/
def getValuesBytes : List Nat :=
  createRecord 9 1 0 ([14, 0] ++ strBytes "FCGI_MAX_CONNS" ++
    [13, 0] ++ strBytes "FCGI_MAX_REQS" ++
    [15, 0] ++ strBytes "FCGI_MPXS_CONNS")

/-- The raw inbound bytes of `TestUnknownRequestType::get_input`. -/
def unknownTypeBytes : List Nat :=
  createRecord 99 1 9 [] ++
    createRecord 9 1 0 ([14, 0] ++ strBytes "FCGI_MAX_CONNS")

theorem decode_paramsInOut :
    decodeRecords paramsInOutBytes = some paramsInOutRecs := by
  decide

theorem decode_keepConn :
    decodeRecords keepConnBytes = some keepConnRecs := by
  decide

theorem decode_abortContinue :
    decodeRecords abortContinueBytes = some abortContinueRecs := by
  decide

theorem decode_getValues :
    decodeRecords getValuesBytes = some getValuesRecs := by
  decide

theorem decode_unknownType :
    decodeRecords unknownTypeBytes = some unknownTypeRecs := by
  decide

theorem fidelity_paramsInOut :
    encodeOut (runConn testConfig paramsInOutHandler paramsInOutRecs).out =
      paramsInOutExpect := by
  decide

theorem fidelity_authorizer :
    encodeOut (runConn testConfig authorizerHandler authorizerRecs).out =
      authorizerExpect := by
  decide

theorem fidelity_filter :
    encodeOut (runConn testConfig filterHandler filterRecs).out =
      authorizerExpect := by
  decide

theorem fidelity_abortRequest :
    encodeOut (runConn testConfig neverHandler abortRequestRecs).out =
      abortRequestExpect := by
  decide

theorem fidelity_abortContinue :
    encodeOut
      (runConn testConfig abortContinueHandler abortContinueRecs).out =
      abortContinueExpect := by
  decide

theorem fidelity_unknownRoleReturn :
    encodeOut
      (runConn testConfig unknownRoleReturnHandler unknownRoleReturnRecs).out
      = unknownRoleReturnExpect := by
  decide

theorem fidelity_unknownRoleRequest :
    (runConn testConfig neverHandler unknownRoleRequestRecs).fatal =
      some EngineError.invalidRoleNumber ∧
    (runConn testConfig neverHandler unknownRoleRequestRecs).out = [] := by
  decide

theorem fidelity_unknownType :
    encodeOut (runConn testConfig neverHandler unknownTypeRecs).out =
      unknownTypeExpect := by
  decide

theorem fidelity_getValues :
    encodeOut (runConn testConfig neverHandler getValuesRecs).out =
      getValuesExpect := by
  decide

theorem fidelity_keepConn :
    encodeOut (runConn testConfig keepConnHandler keepConnRecs).out =
      keepConnExpect := by
  decide

theorem step_dispatch (cfg : Config) (h : Handler) (s : ConnState)
    (t i : Nat) (body : List Nat) (hfat : s.fatal = none)
    (hcl : s.closed = false) :
    step cfg h s ⟨t, i, body⟩ =
      if t = 1 then handleBegin s i body
      else if t = 2 then handleAbort s i
      else if t = 4 then handleParams h s i body
      else if t = 5 then handleStdin h s i body
      else if t = 8 then handleData h s i body
      else if t = 9 then handleGetValues cfg s i body
      else if 1 ≤ t && t ≤ 11 then s
      else emitUnknown s t i := by
  unfold step
  rw [if_neg (by simp [hfat, hcl])]

/-- C1: for every accepted BeginRequest with id `k` and a valid role,
exactly one EndRequest record for id `k` is emitted before the connection
closes — once no request for `k` is left in flight, the number of
EndRequest records for `k` in the outbound sequence equals the number of
accepted BeginRequests for `k` — and its body encodes the handler's
result: every EndRequest body for `k` is the body of a completion event
for `k`, and a handler invocation that returned `complete app` puts an
EndRequest on the wire whose first 4 bytes are `app` big-endian followed
by protocol status 0 (RequestComplete), while `unknownRole` puts protocol
status 3 (UnknownRole) in the fifth byte. -/
theorem fcgi_c1 (cfg : Config) (h : Handler) (input : List Record)
    (k : Nat) (hk : hasKey (runConn cfg h input).table k = false) :
    countEnd (runConn cfg h input).out k =
      countAcc (runConn cfg h input).log k ∧
    (∀ r ∈ (runConn cfg h input).out, r.rtype = 3 → r.id = k →
      ∃ e ∈ (runConn cfg h input).log,
        isCompl e = true ∧ evId e = k ∧ r.body = complBody e) ∧
    (∀ n view oc app,
      Event.invoked n k view oc ∈ (runConn cfg h input).log →
      oc.result = HandlerResult.complete app →
      (⟨3, k, be32 app ++ [0, 0, 0, 0]⟩ : Record) ∈
        (runConn cfg h input).out) ∧
    (∀ n view oc,
      Event.invoked n k view oc ∈ (runConn cfg h input).log →
      oc.result = HandlerResult.unknownRole →
      (⟨3, k, [0, 0, 0, 0, 3, 0, 0, 0]⟩ : Record) ∈
        (runConn cfg h input).out) := by
  have hI := inv_runConn cfg h input
  refine ⟨?_, ?_, ?_, ?_⟩
  · have h1 := hI.countInv k
    have h2 := hI.countActive k
    rw [hk] at h2
    simp at h2
    omega
  · intro r hr h3 hid
    obtain ⟨e, he, hc, hid2, hb⟩ := hI.endBodies r hr h3
    exact ⟨e, he, hc, by rw [hid2, hid], hb⟩
  · intro n view oc app hinv hres
    have hseq := hI.invSeq _ hinv n k view oc rfl
    apply hseq.subset
    rw [show be32 app ++ [0, 0, 0, 0] = endBody oc.result by rw [hres]; rfl]
    simp [handlerRecords]
  · intro n view oc hinv hres
    have hseq := hI.invSeq _ hinv n k view oc rfl
    apply hseq.subset
    rw [show [0, 0, 0, 0, 3, 0, 0, 0] = endBody oc.result by rw [hres]; rfl]
    simp [handlerRecords]

/-- Witness for C1 at the `TestParamsInOut` trace: its single request
(id 1) is accepted and completed, so exactly one EndRequest is counted. -/
theorem fcgi_c1_witness :
    hasKey (runConn testConfig paramsInOutHandler paramsInOutRecs).table 1
      = false ∧
    countEnd (runConn testConfig paramsInOutHandler paramsInOutRecs).out 1
      = countAcc
        (runConn testConfig paramsInOutHandler paramsInOutRecs).log 1 :=
  ⟨by decide,
   (fcgi_c1 testConfig paramsInOutHandler paramsInOutRecs 1 (by decide)).1⟩

/-- C2: for every request whose AbortRequest arrives before the handler
has been invoked (recorded as an abort completion of incarnation `n` for
id `k`), the handler never runs for that request — no handler-invocation
event with the same incarnation exists — and an EndRequest with
application status 0 and protocol status 0 (RequestComplete) is emitted
for that id. -/
theorem fcgi_c2 (cfg : Config) (h : Handler) (input : List Record)
    (n k : Nat)
    (hab : Event.abortedEv n k ∈ (runConn cfg h input).log) :
    ((⟨3, k, [0, 0, 0, 0, 0, 0, 0, 0]⟩ : Record) ∈
      (runConn cfg h input).out) ∧
    (∀ k2 view oc,
      Event.invoked n k2 view oc ∉ (runConn cfg h input).log) := by
  have hI := inv_runConn cfg h input
  refine ⟨?_, ?_⟩
  · have := hI.abortEnd _ hab n k rfl
    simpa [zeros8] using this
  · intro k2 view oc hinv
    have hmem1 : Event.abortedEv n k ∈
        (runConn cfg h input).log.filter (fun e => isCompl e) :=
      List.mem_filter.mpr ⟨hab, by simp [isCompl]⟩
    have hmem2 : Event.invoked n k2 view oc ∈
        (runConn cfg h input).log.filter (fun e => isCompl e) :=
      List.mem_filter.mpr ⟨hinv, by simp [isCompl]⟩
    have heq := nodup_map_inj hI.complND hmem1 hmem2 rfl
    simp at heq

/-- Witness for C2 at the `TestAbortRequest` trace: request 1 is aborted
after its params sealed; the all-zero EndRequest is on the wire. -/
theorem fcgi_c2_witness :
    Event.abortedEv 0 1 ∈
      (runConn testConfig neverHandler abortRequestRecs).log ∧
    (⟨3, 1, [0, 0, 0, 0, 0, 0, 0, 0]⟩ : Record) ∈
      (runConn testConfig neverHandler abortRequestRecs).out :=
  ⟨by decide,
   (fcgi_c2 testConfig neverHandler abortRequestRecs 0 1 (by decide)).1⟩

/-- C9: within one request id, the records of a handled request appear on
the wire as one contiguous block in submission order — the chunked
stdout/stderr writes in the order they were submitted, then the
zero-length StdOut closer, the zero-length StdErr closer, and finally the
EndRequest record. -/
theorem fcgi_c9 (cfg : Config) (h : Handler) (input : List Record)
    (n k : Nat) (view : RequestView) (oc : HandlerOutcome)
    (hinv : Event.invoked n k view oc ∈ (runConn cfg h input).log) :
    (writeRecords k oc.writes ++
      [⟨6, k, []⟩, ⟨7, k, []⟩, ⟨3, k, endBody oc.result⟩]) <:+:
      (runConn cfg h input).out :=
  (inv_runConn cfg h input).invSeq _ hinv n k view oc rfl

/-- The view of request 1 in the `TestKeepConnection` trace. -/
def kcView1 : RequestView :=
  { id := 1, role := 1, keepConn := true,
    params := [(strBytes "idx", strBytes "2")], stdin := range100,
    data := [] }

/-- Witness for C9 at the `TestKeepConnection` trace, request id 1. -/
theorem fcgi_c9_witness :
    Event.invoked 1 1 kcView1 (keepConnHandler kcView1) ∈
      (runConn testConfig keepConnHandler keepConnRecs).log ∧
    (writeRecords 1 (keepConnHandler kcView1).writes ++
      [⟨6, 1, []⟩, ⟨7, 1, []⟩,
       ⟨3, 1, endBody (keepConnHandler kcView1).result⟩]) <:+:
      (runConn testConfig keepConnHandler keepConnRecs).out :=
  ⟨by decide,
   fcgi_c9 testConfig keepConnHandler keepConnRecs 1 1 kcView1
     (keepConnHandler kcView1) (by decide)⟩

/-- C5: a BeginRequest whose role field is not in {1, 2, 3} makes
processing fail with the fatal `InvalidRoleNumber` error: the run ends in
the fatal state, the remaining records are not processed, and nothing
more is emitted or logged — in particular the handler is never invoked
for that request. -/
theorem fcgi_c5 (cfg : Config) (h : Handler) (pre rest : List Record)
    (bad : Record) (hty : bad.rtype = 1)
    (hrole : ¬(bad.body.getD 0 0 * 256 + bad.body.getD 1 0 = 1 ∨
      bad.body.getD 0 0 * 256 + bad.body.getD 1 0 = 2 ∨
      bad.body.getD 0 0 * 256 + bad.body.getD 1 0 = 3))
    (hfat : (runConn cfg h pre).fatal = none)
    (hcl : (runConn cfg h pre).closed = false) :
    runConn cfg h (pre ++ bad :: rest) =
      { runConn cfg h pre with
        fatal := some EngineError.invalidRoleNumber } := by
  rw [runConn_append, List.foldl_cons]
  have hstep : step cfg h (runConn cfg h pre) bad =
      { runConn cfg h pre with
        fatal := some EngineError.invalidRoleNumber } := by
    unfold step
    rw [if_neg (by simp [hfat, hcl]), if_pos hty]
    simp only [handleBegin]
    rw [if_neg hrole]
  rw [hstep]
  exact foldl_fatal rest (by simp)

/-- Witness for C5 at the `TestUnknownRoleRequest` trace: role 0xFFFF is
rejected before anything is emitted; the subsequent Params and StdIn
records are ignored. -/
theorem fcgi_c5_witness :
    runConn testConfig neverHandler unknownRoleRequestRecs =
      { runConn testConfig neverHandler [] with
        fatal := some EngineError.invalidRoleNumber } :=
  fcgi_c5 testConfig neverHandler [] [⟨4, 1, []⟩, ⟨5, 1, []⟩]
    ⟨1, 1, [255, 255, 0, 0, 0, 0, 0, 0]⟩ rfl (by decide) rfl rfl

/-- C6: a record whose type byte is not recognized is answered
non-fatally: the engine emits an UnknownType record whose 8-byte body is
the raw received type byte followed by seven zero bytes, and nothing else
of the connection state changes, so subsequent records are processed
normally. -/
theorem fcgi_c6 (cfg : Config) (h : Handler) (s : ConnState) (t i : Nat)
    (body : List Nat) (hfat : s.fatal = none) (hcl : s.closed = false)
    (ht : ¬(1 ≤ t ∧ t ≤ 11)) :
    step cfg h s ⟨t, i, body⟩ =
      { s with out := s.out ++ [⟨11, i, [t, 0, 0, 0, 0, 0, 0, 0]⟩] } := by
  rw [step_dispatch cfg h s t i body hfat hcl]
  rw [if_neg (by omega), if_neg (by omega), if_neg (by omega),
    if_neg (by omega), if_neg (by omega), if_neg (by omega),
    if_neg (by simp; omega)]
  rfl

/-- Witness for C6: the type-99 record of `TestUnknownRequestType` gets
the `[99, 0, 0, 0, 0, 0, 0, 0]` UnknownType reply and the state is
otherwise untouched. -/
theorem fcgi_c6_witness :
    step testConfig neverHandler initConn ⟨99, 1, []⟩ =
      { initConn with
        out := initConn.out ++ [⟨11, 1, [99, 0, 0, 0, 0, 0, 0, 0]⟩] } :=
  fcgi_c6 testConfig neverHandler initConn 99 1 [] rfl rfl (by omega)

/-- Counterexample to C3 as stated: in the `TestKeepConnection` trace of
`src/tests/commons.rs` a BeginRequest record carrying request id 0 is
received, a Request for id 0 is created and yielded to the handler (one
handler-invocation event for id 0), and an EndRequest for id 0 is
emitted — exactly as the byte-level output the test expects. -/
theorem fcgi_c3_counterexample :
    ((⟨1, 0, [0, 1, 1, 0, 0, 0, 0, 0]⟩ : Record) ∈ keepConnRecs) ∧
    (runConn testConfig keepConnHandler keepConnRecs).log.countP
      (isInvokedFor 0) = 1 ∧
    countEnd (runConn testConfig keepConnHandler keepConnRecs).out 0 = 1 ∧
    encodeOut (runConn testConfig keepConnHandler keepConnRecs).out =
      keepConnExpect := by
  decide

/-- C3 (amended): management-type records — GetValues and records of
unrecognized type — never create or yield a Request, whatever their id;
but request id 0 is otherwise not special: a BeginRequest with id 0 and a
valid role creates a Request like any other id. -/
theorem fcgi_c3_amended (cfg : Config) (h : Handler) (s : ConnState)
    (t i : Nat) (body bodyB : List Nat)
    (hfat : s.fatal = none) (hcl : s.closed = false)
    (hmgmt : t = 9 ∨ ¬(1 ≤ t ∧ t ≤ 11))
    (hrole : bodyB.getD 0 0 * 256 + bodyB.getD 1 0 = 1)
    (hfree : lookupTable s.table 0 = none) :
    ((step cfg h s ⟨t, i, body⟩).table = s.table ∧
     (step cfg h s ⟨t, i, body⟩).log = s.log) ∧
    hasKey (step cfg h s ⟨1, 0, bodyB⟩).table 0 = true := by
  constructor
  · rcases hmgmt with ht9 | htu
    · subst ht9
      rw [step_dispatch cfg h s 9 i body hfat hcl]
      rw [if_neg (by omega), if_neg (by omega), if_neg (by omega),
        if_neg (by omega), if_neg (by omega), if_pos rfl]
      unfold handleGetValues
      cases hD : decodeNV body with
      | none => exact ⟨rfl, rfl⟩
      | some ps => exact ⟨rfl, rfl⟩
    · rw [step_dispatch cfg h s t i body hfat hcl]
      rw [if_neg (by omega), if_neg (by omega), if_neg (by omega),
        if_neg (by omega), if_neg (by omega), if_neg (by omega),
        if_neg (by simp; omega)]
      exact ⟨rfl, rfl⟩
  · rw [step_dispatch cfg h s 1 0 bodyB hfat hcl, if_pos rfl]
    have heq : handleBegin s 0 bodyB =
        { s with
          table := (0, newReqState s.counter
            (bodyB.getD 0 0 * 256 + bodyB.getD 1 0)
            (decide (bodyB.getD 2 0 % 2 = 1))) :: s.table,
          log := s.log ++ [Event.accepted s.counter 0
            (bodyB.getD 0 0 * 256 + bodyB.getD 1 0)
            (decide (bodyB.getD 2 0 % 2 = 1))],
          counter := s.counter + 1 } := by
      simp only [handleBegin]
      rw [if_pos (Or.inl hrole), hfree]
    rw [heq]
    simp [hasKey, lookupTable]

/-- Witness for C3 (amended): a GetValues record on id 5 leaves table and
log untouched, and a BeginRequest with id 0 creates the id-0 request. -/
theorem fcgi_c3_witness :
    ((step testConfig neverHandler initConn ⟨9, 5, []⟩).table =
      initConn.table ∧
     (step testConfig neverHandler initConn ⟨9, 5, []⟩).log =
      initConn.log) ∧
    hasKey (step testConfig neverHandler initConn
      ⟨1, 0, [0, 1]⟩).table 0 = true :=
  fcgi_c3_amended testConfig neverHandler initConn 9 5 [] [0, 1] rfl rfl
    (Or.inl rfl) (by decide) rfl

/-- Counterexample to C4 as stated: in the `TestKeepConnection` trace the
empty Params record of request 0 arrives before the one of request 1, yet
the requests are completed and yielded in the order 1, 0 — and the
corresponding outbound bytes are exactly what the test in
`src/tests/commons.rs` expects. -/
theorem fcgi_c4_counterexample :
    ((keepConnRecs.filter
      (fun r => r.rtype == 4 && r.body.isEmpty)).map Record.id) = [0, 1] ∧
    (((runConn testConfig keepConnHandler keepConnRecs).log.filter
      (fun e => isCompl e)).map evId) = [1, 0] ∧
    encodeOut (runConn testConfig keepConnHandler keepConnRecs).out =
      keepConnExpect := by
  decide

/-- C4 (amended): the multiplexer yields a completed Request when the
last stream its role requires is sealed, not when its Params stream is
sealed: for a Responder request with sealed params and open stdin, the
empty StdIn record triggers the handler invocation, whereas the empty
Params record that seals the params of a Responder request with open
stdin yields nothing. -/
theorem fcgi_c4_amended (cfg : Config) (h : Handler) (s : ConnState)
    (k : Nat) (st : ReqState) (hfat : s.fatal = none)
    (hcl : s.closed = false) (hl : lookupTable s.table k = some st)
    (hrole : st.role = 1) :
    (st.params.isSome = true → st.stdinClosed = false →
      (step cfg h s ⟨5, k, []⟩).log = s.log ++
        [Event.invoked st.n k (mkView k { st with stdinClosed := true })
          (h (mkView k { st with stdinClosed := true }))]) ∧
    (st.params = none → st.stdinClosed = false →
      (step cfg h s ⟨4, k, []⟩).log = s.log) := by
  constructor
  · intro hps hsc
    rw [step_dispatch cfg h s 5 k [] hfat hcl]
    rw [if_neg (by omega), if_neg (by omega), if_neg (by omega),
      if_pos rfl]
    have heq : handleStdin h s k [] =
        putAndCheck h s k { st with stdinClosed := true } := by
      simp [handleStdin, hl, hsc]
    rw [heq]
    unfold putAndCheck
    rw [if_pos (by simp [ReqState.ready, hps, hrole])]
    rfl
  · intro hps hsc
    rw [step_dispatch cfg h s 4 k [] hfat hcl]
    rw [if_neg (by omega), if_neg (by omega), if_pos rfl]
    have hnps : st.params.isSome = false := by simp [hps]
    cases hD : decodeNV st.paramsBuf with
    | none =>
        have heq : handleParams h s k [] =
            { s with fatal := some EngineError.malformedParams } := by
          simp [handleParams, hl, hnps, hD]
        rw [heq]
    | some ps =>
        have heq : handleParams h s k [] =
            putAndCheck h s k { st with params := some (buildParams ps) } := by
          simp [handleParams, hl, hnps, hD]
        rw [heq]
        unfold putAndCheck
        rw [if_neg (by simp [ReqState.ready, hrole, hsc])]

/-- The request state used by the C4 witness: a Responder request with
sealed (empty) params and open stdin. -/
def c4St : ReqState :=
  { n := 0, role := 1, keepConn := true, paramsBuf := [],
    params := some [], stdin := [], stdinClosed := false, data := [],
    dataClosed := false }

/-- The request state used by the C4 witness with params not yet
sealed. -/
def c4StOpen : ReqState :=
  { n := 0, role := 1, keepConn := true, paramsBuf := [],
    params := none, stdin := [], stdinClosed := false, data := [],
    dataClosed := false }

/-- Witness for C4 (amended): on a Responder request with sealed params
the empty StdIn record invokes the handler, and on one with open params
and open stdin the empty Params record yields nothing. -/
theorem fcgi_c4_witness :
    ((step testConfig neverHandler
      { initConn with table := [(1, c4St)] } ⟨5, 1, []⟩).log =
      [] ++ [Event.invoked 0 1 (mkView 1 { c4St with stdinClosed := true })
        (neverHandler (mkView 1 { c4St with stdinClosed := true }))]) ∧
    ((step testConfig neverHandler
      { initConn with table := [(1, c4StOpen)] } ⟨4, 1, []⟩).log = []) :=
  ⟨(fcgi_c4_amended testConfig neverHandler
      { initConn with table := [(1, c4St)] } 1 c4St rfl rfl (by decide)
      rfl).1 rfl rfl,
   (fcgi_c4_amended testConfig neverHandler
      { initConn with table := [(1, c4StOpen)] } 1 c4StOpen rfl rfl
      (by decide) rfl).2 rfl rfl⟩

/-- Counterexample to C7 as stated: the GetValues record of
`TestGetValues` arrives on request id 1, and the single GetValuesResult
reply is emitted on id 1 — not on id 0 — matching the byte-level output
the test in `src/tests/commons.rs` expects. -/
theorem fcgi_c7_counterexample :
    ((getValuesRecs.map Record.rtype = [9]) ∧
     (getValuesRecs.map Record.id = [1])) ∧
    ((runConn testConfig neverHandler getValuesRecs).out.map Record.rtype
      = [10]) ∧
    ((runConn testConfig neverHandler getValuesRecs).out.map Record.id
      = [1]) ∧
    (1 : Nat) ≠ 0 ∧
    encodeOut (runConn testConfig neverHandler getValuesRecs).out =
      getValuesExpect := by
  decide

/-- C7 (amended): a GetValues record is answered with a single
GetValuesResult record on the same request id as the incoming record,
whose content holds one name-value pair per recognized key — the decimal
string of `max_conns` for FCGI_MAX_CONNS, of `max_reqs` for
FCGI_MAX_REQS, and "1" for FCGI_MPXS_CONNS — with unrecognized keys
omitted; the request table and the event log are untouched, so no
Request is yielded and no handler runs. -/
theorem fcgi_c7_amended (cfg : Config) (h : Handler) (s : ConnState)
    (i : Nat) (body : List Nat) (ps : List (List Nat × List Nat))
    (hfat : s.fatal = none) (hcl : s.closed = false)
    (hD : decodeNV body = some ps) :
    step cfg h s ⟨9, i, body⟩ =
      { s with out := s.out ++
          [⟨10, i, encodeNV (ps.filterMap (replyFor cfg))⟩] } := by
  rw [step_dispatch cfg h s 9 i body hfat hcl]
  rw [if_neg (by omega), if_neg (by omega), if_neg (by omega),
    if_neg (by omega), if_neg (by omega), if_pos rfl]
  unfold handleGetValues
  rw [hD]
  rfl

/-- Witness for C7 (amended) at the GetValues body of
`TestUnknownRequestType`: the reply lands on the incoming id 1 with the
single recognized pair. -/
theorem fcgi_c7_witness :
    decodeNV ([14, 0] ++ strBytes "FCGI_MAX_CONNS") =
      some [(strBytes "FCGI_MAX_CONNS", [])] ∧
    step testConfig neverHandler initConn
      ⟨9, 1, [14, 0] ++ strBytes "FCGI_MAX_CONNS"⟩ =
      { initConn with out := initConn.out ++
          [⟨10, 1, encodeNV ([(strBytes "FCGI_MAX_CONNS",
            ([] : List Nat))].filterMap (replyFor testConfig))⟩] } :=
  ⟨by decide,
   fcgi_c7_amended testConfig neverHandler initConn 1
     ([14, 0] ++ strBytes "FCGI_MAX_CONNS")
     [(strBytes "FCGI_MAX_CONNS", [])] rfl rfl (by decide)⟩

theorem getParam_build_mem (pairs : List (List Nat × List Nat))
    (hnd : (pairs.map (fun p => lowerName p.1)).Nodup) :
    ∀ p ∈ pairs, getParam (buildParams pairs) p.1 = some p.2 := by
  induction pairs with
  | nil => simp
  | cons q t ih =>
      intro p hp
      rw [List.map_cons] at hnd
      have hnd' := List.nodup_cons.mp hnd
      rcases List.mem_cons.mp hp with rfl | hp'
      · simp [getParam, buildParams, lookupParams]
      · have hne : ¬ lowerName q.1 = lowerName p.1 := by
          intro hcontra
          exact hnd'.1 (by
            rw [hcontra]
            exact List.mem_map.mpr ⟨p, hp', rfl⟩)
        have hrec := ih hnd'.2 p hp'
        simp only [getParam, buildParams, List.map_cons,
          lookupParams] at hrec ⊢
        rw [if_neg hne]
        exact hrec

theorem getParam_build_absent (pairs : List (List Nat × List Nat))
    (name : List Nat)
    (habs : ∀ p ∈ pairs, lowerName p.1 ≠ lowerName name) :
    getParam (buildParams pairs) name = none := by
  induction pairs with
  | nil => simp [getParam, buildParams, lookupParams]
  | cons q t ih =>
      have hne : ¬ lowerName q.1 = lowerName name :=
        habs q (List.mem_cons_self _ _)
      have hrec := ih (fun p hp => habs p (List.mem_cons_of_mem _ hp))
      simp only [getParam, buildParams, List.map_cons,
        lookupParams] at hrec ⊢
      rw [if_neg hne]
      exact hrec

/-- C8: the sealed parameter map maps lowercased names to the original
value bytes — lookup is case-insensitive (names with equal lowercasings
are interchangeable, and each received pair is found under its original
name, returning the unmodified value bytes); iteration yields the
lowercased names paired with the original values; the string-view
accessors return the value exactly when its bytes are valid UTF-8 and
`none` otherwise; a name that was never received looks up to `none`. -/
theorem fcgi_c8 (pairs : List (List Nat × List Nat))
    (hnd : (pairs.map (fun p => lowerName p.1)).Nodup) :
    (∀ n1 n2, lowerName n1 = lowerName n2 →
      getParam (buildParams pairs) n1 = getParam (buildParams pairs) n2) ∧
    (∀ p ∈ pairs, getParam (buildParams pairs) p.1 = some p.2) ∧
    (buildParams pairs = pairs.map (fun p => (lowerName p.1, p.2))) ∧
    (∀ name v, getStrParam (buildParams pairs) name = some v ↔
      getParam (buildParams pairs) name = some v ∧ validUtf8 v = true) ∧
    (∀ q ∈ buildParams pairs,
      (strParamsIter (buildParams pairs) =
        (buildParams pairs).map
          (fun p => (p.1, if validUtf8 p.2 then some p.2 else none)))) ∧
    (∀ name, (∀ p ∈ pairs, lowerName p.1 ≠ lowerName name) →
      getParam (buildParams pairs) name = none) := by
  refine ⟨?_, getParam_build_mem pairs hnd, rfl, ?_, ?_, ?_⟩
  · intro n1 n2 he
    simp only [getParam]
    rw [he]
  · intro name v
    unfold getStrParam
    cases hgp : getParam (buildParams pairs) name with
    | none => simp
    | some w =>
        by_cases hu : validUtf8 w = true
        · simp only [hu, if_true]
          constructor
          · intro hsv
            refine ⟨hsv, ?_⟩
            injection hsv with hwv
            rw [← hwv]
            exact hu
          · rintro ⟨hw, -⟩
            exact hw
        · simp only [Bool.not_eq_true] at hu
          simp only [hu]
          constructor
          · intro hcon
            simp at hcon
          · rintro ⟨hw, hv⟩
            cases hw
            rw [hv] at hu
            cases hu
  · intro q _
    rfl
  · intro name habs
    exact getParam_build_absent pairs name habs

/-- The parameter pairs of the `TestParamsInOut` trace, as received. -/
def pioPairs : List (List Nat × List Nat) :=
  [(strBytes "SERVER_PORT", strBytes "80"),
   (strBytes "TEST", strBytes "YES"),
   (strBytes "NOUTF8", strBytes "NO" ++ [240])]

/-- Witness for C8 at the `TestParamsInOut` parameters: SERVER_PORT looks
up case-insensitively to the original bytes "80", and the string view of
the non-UTF-8 value of NOUTF8 is governed by the UTF-8 validity of its
bytes. -/
theorem fcgi_c8_witness :
    ((pioPairs.map (fun p => lowerName p.1)).Nodup) ∧
    getParam (buildParams pioPairs) (strBytes "SERVER_PORT") =
      some (strBytes "80") ∧
    (getStrParam (buildParams pioPairs) (strBytes "NOUTF8") =
        some (strBytes "NO" ++ [240]) ↔
      getParam (buildParams pioPairs) (strBytes "NOUTF8") =
          some (strBytes "NO" ++ [240]) ∧
        validUtf8 (strBytes "NO" ++ [240]) = true) :=
  ⟨by decide,
   (fcgi_c8 pioPairs (by decide)).2.1
     (strBytes "SERVER_PORT", strBytes "80") (by decide),
   (fcgi_c8 pioPairs (by decide)).2.2.2.1 (strBytes "NOUTF8")
     (strBytes "NO" ++ [240])⟩

theorem foldl_mgmt (cfg : Config) (h : Handler) (k : Nat)
    (l : List Record) :
    ∀ s : ConnState,
    (∀ q ∈ s.out, q.rtype = 10 ∨ q.rtype = 11 → q.id ≠ k) →
    (∀ r ∈ l, r.id = k → r.rtype = 1 ∨ r.rtype = 2 ∨ r.rtype = 4 ∨
      r.rtype = 5 ∨ r.rtype = 8) →
    ∀ q ∈ (List.foldl (step cfg h) s l).out,
      q.rtype = 10 ∨ q.rtype = 11 → q.id ≠ k := by
  induction l with
  | nil =>
      intro s hs _
      simpa using hs
  | cons r t ih =>
      intro s hs hl
      rw [List.foldl_cons]
      exact ih _ (step_mgmt hs (hl r (List.mem_cons_self _ _)))
        (fun r2 hr2 => hl r2 (List.mem_cons_of_mem _ hr2))

/-- C10: for a request id `k` that is accepted once, aborted before its
handler ran, and receives only request-directed record types on the wire,
the only outbound record carrying id `k` is the single all-zero
EndRequest — no zero-length StdOut or StdErr closers are written for the
aborted request — while every sibling request that ran its handler still
emits its full output sequence. -/
theorem fcgi_c10 (cfg : Config) (h : Handler) (input : List Record)
    (n k : Nat)
    (hin : ∀ r ∈ input, r.id = k → r.rtype = 1 ∨ r.rtype = 2 ∨
      r.rtype = 4 ∨ r.rtype = 5 ∨ r.rtype = 8)
    (hab : Event.abortedEv n k ∈ (runConn cfg h input).log)
    (hacc : countAcc (runConn cfg h input).log k = 1)
    (hk : hasKey (runConn cfg h input).table k = false) :
    (runConn cfg h input).out.filter (fun r => r.id == k) =
      [⟨3, k, zeros8⟩] ∧
    (∀ n2 j view oc,
      Event.invoked n2 j view oc ∈ (runConn cfg h input).log →
      (writeRecords j oc.writes ++
        [⟨6, j, []⟩, ⟨7, j, []⟩, ⟨3, j, endBody oc.result⟩]) <:+:
        (runConn cfg h input).out) := by
  have hI := inv_runConn cfg h input
  have hcompl : countCompl (runConn cfg h input).log k = 1 := by
    have hca := hI.countActive k
    rw [hk] at hca
    simp at hca
    omega
  have hnoinv : ∀ e ∈ (runConn cfg h input).log,
      isInvokedFor k e = false := by
    intro e he
    by_contra hcon
    rw [Bool.not_eq_false] at hcon
    cases e with
    | accepted n2 k2 rl kp => simp [isInvokedFor] at hcon
    | abortedEv n2 k2 => simp [isInvokedFor] at hcon
    | invoked n2 k2 v o =>
        have hk2 : k2 = k := by simpa [isInvokedFor] using hcon
        have h2 : 2 ≤ (runConn cfg h input).log.countP
            (fun e => isCompl e && evId e == k) :=
          two_le_countP (by simp) hab he
            (by simp [isCompl, evId]) (by simp [isCompl, evId, hk2])
        unfold countCompl at hcompl
        omega
  have hno67 : ∀ r ∈ (runConn cfg h input).out, r.id = k →
      ¬(r.rtype = 6 ∨ r.rtype = 7) := by
    intro r hr hid hcon
    obtain ⟨e, he, hef⟩ := hI.stdSrc r hr hcon
    rw [hid, hnoinv e he] at hef
    exact absurd hef (by simp)
  have hno1011 : ∀ r ∈ (runConn cfg h input).out,
      r.rtype = 10 ∨ r.rtype = 11 → r.id ≠ k :=
    foldl_mgmt cfg h k input initConn (by simp [initConn]) hin
  have hall : ∀ r ∈ (runConn cfg h input).out, r.id = k →
      r = ⟨3, k, zeros8⟩ := by
    intro r hr hid
    have h3 : r.rtype = 3 := by
      rcases hI.outTypes r hr with h1 | h1 | h1 | h1 | h1
      · exact h1
      · exact absurd (Or.inl h1) (hno67 r hr hid)
      · exact absurd (Or.inr h1) (hno67 r hr hid)
      · exact absurd hid (hno1011 r hr (Or.inl h1))
      · exact absurd hid (hno1011 r hr (Or.inr h1))
    obtain ⟨e, he, hec, heid, hb⟩ := hI.endBodies r hr h3
    have hzb : r.body = zeros8 := by
      cases e with
      | accepted n2 k2 rl kp => simp [isCompl] at hec
      | invoked n2 k2 v o =>
          have hf := hnoinv _ he
          have hk2 : k2 = k := by
            have hh : evId (Event.invoked n2 k2 v o) = k := by
              rw [heid, hid]
            simpa [evId] using hh
          rw [hk2] at hf
          simp [isInvokedFor] at hf
      | abortedEv n2 k2 => rw [hb]; rfl
    cases r
    simp_all
  have hcnt : (runConn cfg h input).out.countP (fun r => r.id == k) = 1 := by
    have hcg : (runConn cfg h input).out.countP (fun r => r.id == k) =
        countEnd (runConn cfg h input).out k := by
      apply List.countP_congr
      intro r hr
      simp only [Bool.and_eq_true, beq_iff_eq]
      constructor
      · intro hid
        have := hall r hr hid
        subst this
        exact ⟨rfl, rfl⟩
      · rintro ⟨-, hid⟩
        exact hid
    rw [hcg, hI.countInv k, hcompl]
  refine ⟨?_, ?_⟩
  · apply all_eq_singleton
    · intro x hx
      have hxm := List.mem_filter.mp hx
      exact hall x hxm.1 (by simpa using hxm.2)
    · rw [← List.countP_eq_length_filter]
      exact hcnt
  · intro n2 j view oc hinv2
    exact hI.invSeq _ hinv2 n2 j view oc rfl

/-- Witness for C10 at the `TestAbortContinue` trace: request 1 is
aborted, and the only outbound record on id 1 is the all-zero EndRequest
while request 0 runs its handler and emits its full sequence. -/
theorem fcgi_c10_witness :
    Event.abortedEv 1 1 ∈
      (runConn testConfig abortContinueHandler abortContinueRecs).log ∧
    countAcc
      (runConn testConfig abortContinueHandler abortContinueRecs).log 1
      = 1 ∧
    hasKey
      (runConn testConfig abortContinueHandler abortContinueRecs).table 1
      = false ∧
    (runConn testConfig abortContinueHandler abortContinueRecs).out.filter
      (fun r => r.id == 1) = [⟨3, 1, zeros8⟩] :=
  ⟨by decide, by decide, by decide,
   (fcgi_c10 testConfig abortContinueHandler abortContinueRecs 1 1
     (by decide) (by decide) (by decide) (by decide)).1⟩
